import Mathlib

/-!
# create-web3-dapp: `src/utils/directory.js`

A shallow embedding of the project-initialisation helpers of `directory.js`
and the properties of the placeholder rendering, the project detection
predicate and the directory set-up workflow.

Modelling conventions.
* A JavaScript string is a list of characters (`Str`).  Every pattern the
  code searches for is ASCII, so matching on characters and matching on
  UTF-16 code units agree.
* `String.prototype.replace` with a string pattern is embedded after
  ECMA-262 (`StringIndexOf`, `GetSubstitution` with an empty capture list).
-/

namespace Cw3d

/-- A JavaScript string value. -/
abbrev Str := List Char

/-! ## `String.prototype.replace(searchString, replaceString)` -/

/-- The character U+0024, which introduces a replacement pattern. -/
def dollar : Char := Char.ofNat 36

/-- The character U+0060 of the replacement pattern "portion before the match". -/
def backquote : Char := Char.ofNat 96

/-- The character U+0027 of the replacement pattern "portion after the match". -/
def quote : Char := Char.ofNat 39

/-- The character U+007B. -/
def lbrace : Char := Char.ofNat 123

/-- The character U+007D. -/
def rbrace : Char := Char.ofNat 125

/-- ECMA-262 `StringIndexOf(string, searchValue, 0)`: the least index at which
`pat` occurs in the string, if any. -/
def stringIndexOf (pat : Str) : Str → Option Nat
  | [] => if pat.isPrefixOf [] then some 0 else none
  | c :: t =>
    if pat.isPrefixOf (c :: t) then some 0
    else (stringIndexOf pat t).map (· + 1)

/-- ECMA-262 `GetSubstitution(matched, str, position, captures, namedCaptures,
replacementTemplate)` for an empty `captures` list and undefined
`namedCaptures`, which is how `replace` calls it for a string pattern. -/
def getSubstitution (matched str : Str) (position : Nat) : Str → Str
  | [] => []
  | [c] => [c]
  | c :: d :: rest =>
    if c = dollar then
      if d = dollar then dollar :: getSubstitution matched str position rest
      else if d = backquote then
        str.take position ++ getSubstitution matched str position rest
      else if d = Char.ofNat 38 then
        matched ++ getSubstitution matched str position rest
      else if d = quote then
        str.drop (min (position + matched.length) str.length)
          ++ getSubstitution matched str position rest
      else if d.isDigit then
        -- no capture exists, so the reference is copied as it stands; a second
        -- digit, if any, is copied by the next step either way
        dollar :: d :: getSubstitution matched str position rest
      else if d = Char.ofNat 60 then
        dollar :: d :: getSubstitution matched str position rest
      else dollar :: getSubstitution matched str position (d :: rest)
    else c :: getSubstitution matched str position (d :: rest)

/-- The method `String.prototype.replace` called on `s` with the string pattern
`pat` and the string replacement `repl`: only the first occurrence is replaced. -/
def jsReplace (s pat repl : Str) : Str :=
  match stringIndexOf pat s with
  | none => s
  | some pos =>
    s.take pos ++ getSubstitution pat s pos repl ++ s.drop (pos + pat.length)

/-! ## Chain registry records and the configuration template -/

/-- An entry of `CHAIN_CONFIGS` (`../config/chains.js`). -/
structure ChainConfig where
  shortName : Str
  mainnetName : Str
  mainnetChainId : Str
  testnetChainId : Str
  testnetChainName : Str

/-- The pattern of the first `replace` call. -/
def tokMainnetName : Str := "{{mainnetName}}".toList

/-- The pattern of the second `replace` call. -/
def tokMainnetChainId : Str := "{{mainnetChainId}}".toList

/-- The pattern of the third `replace` call. -/
def tokTestnetChainId : Str := "{{testnetChainId}}".toList

/-- The pattern of the fourth `replace` call. -/
def tokTestnetChainName : Str := "{{testnetChainName}}".toList

/-- The expression computing `configContent` in `setupProjectDirectory`
(lines 116-120) and, identically, in `updateProjectConfig` (lines 146-150). -/
def renderConfig (template : Str) (chainConfig : ChainConfig) : Str :=
  jsReplace
    (jsReplace
      (jsReplace
        (jsReplace template tokMainnetName chainConfig.mainnetName)
        tokMainnetChainId chainConfig.mainnetChainId)
      tokTestnetChainId chainConfig.testnetChainId)
    tokTestnetChainName chainConfig.testnetChainName

/-! ## Vocabulary for stating the rendering properties -/

/-- The four placeholder tokens, in the order in which the code replaces them. -/
def placeholderTokens : List Str :=
  [tokMainnetName, tokMainnetChainId, tokTestnetChainId, tokTestnetChainName]

/-- The four field values of a chain record, in the order of `placeholderTokens`. -/
def fieldValues (c : ChainConfig) : List Str :=
  [c.mainnetName, c.mainnetChainId, c.testnetChainId, c.testnetChainName]

/-- Each placeholder token paired with the field that replaces it. -/
def substitutionPairs (c : ChainConfig) : List (Str × Str) :=
  [(tokMainnetName, c.mainnetName), (tokMainnetChainId, c.mainnetChainId),
   (tokTestnetChainId, c.testnetChainId), (tokTestnetChainName, c.testnetChainName)]

/-- Number of positions of `s` at which `pat` occurs. -/
def countOcc (pat : Str) : Str → Nat
  | [] => if pat.isPrefixOf [] then 1 else 0
  | c :: t => (if pat.isPrefixOf (c :: t) then 1 else 0) + countOcc pat t

/-- Every position of `s` where two opening braces stand is the start of one of
the tokens `toks`. -/
def openersStartTokens (toks : List Str) : Str → Bool
  | [] => true
  | c :: t =>
    (!([lbrace, lbrace].isPrefixOf (c :: t)) || toks.any (fun T => T.isPrefixOf (c :: t)))
      && openersStartTokens toks t

/-- Simultaneous substitution, read left to right: at a position where a token
of `ps` starts the paired value is written and the token is skipped (`skip`
counts the characters of it still to pass over); any other character is
copied. -/
def substituteFrom (ps : List (Str × Str)) : Nat → Str → Str
  | _, [] => []
  | k + 1, _ :: t => substituteFrom ps k t
  | 0, c :: t =>
    match ps.find? (fun p => p.1.isPrefixOf (c :: t)) with
    | some p => p.2 ++ substituteFrom ps (p.1.length - 1) t
    | none => c :: substituteFrom ps 0 t

/-- The template with every occurrence of a placeholder token replaced by the
corresponding field of the chain record and every other character unchanged. -/
def substituteAll (c : ChainConfig) (template : Str) : Str :=
  substituteFrom (substitutionPairs c) 0 template

/-- The four placeholders of the template. -/
inductive Placeholder
  | mainnetName
  | mainnetChainId
  | testnetChainId
  | testnetChainName
  deriving DecidableEq, Repr

/-- The four placeholders, in the order in which the code replaces them. -/
def Placeholder.all : List Placeholder :=
  [.mainnetName, .mainnetChainId, .testnetChainId, .testnetChainName]

/-- The token that stands for a placeholder in the template. -/
def Placeholder.token : Placeholder → Str
  | .mainnetName => tokMainnetName
  | .mainnetChainId => tokMainnetChainId
  | .testnetChainId => tokTestnetChainId
  | .testnetChainName => tokTestnetChainName

/-- The field of the chain record that the code passes for a placeholder. -/
def Placeholder.field (c : ChainConfig) : Placeholder → Str
  | .mainnetName => c.mainnetName
  | .mainnetChainId => c.mainnetChainId
  | .testnetChainId => c.testnetChainId
  | .testnetChainName => c.testnetChainName

/-! ## Auxiliary notions used in the proofs about rendering -/

/-- Replacement of the first occurrence of `tok` by the literal text `v`. -/
def replaceFirst (tok v : Str) : Str → Str
  | [] => if tok.isPrefixOf [] then v else []
  | c :: t =>
    if tok.isPrefixOf (c :: t) then v ++ (c :: t).drop tok.length
    else c :: replaceFirst tok v t

/-- Literal first-occurrence replacements applied one after the other. -/
def replaceChain (ps : List (Str × Str)) (s : Str) : Str :=
  ps.foldl (fun acc p => replaceFirst p.1 p.2 acc) s

/-- The list of pairs without the first pair whose token is `T`. -/
def erasePair (T : Str) : List (Str × Str) → List (Str × Str)
  | [] => []
  | q :: ps => if q.1 = T then ps else q :: erasePair T ps

/-- A token has the shape of two opening braces, a brace-free name and two
closing braces. -/
def IsToken (T : Str) : Prop :=
  ∃ name : Str, T = lbrace :: lbrace :: (name ++ [rbrace, rbrace])
    ∧ lbrace ∉ name ∧ rbrace ∉ name

/-- No token can start inside a quiet text, whatever follows it: no two
opening braces stand side by side and the last character is not one. -/
def quiet : Str → Bool
  | [] => true
  | [c] => c != lbrace
  | c :: d :: r => (c != lbrace || d != lbrace) && quiet (d :: r)

/-- The pattern `T` matches at no position of `u`, whatever text follows `u`. -/
def NoStart (T : Str) : Str → Prop
  | [] => True
  | c :: u => (∀ x : Str, T.isPrefixOf (c :: u ++ x) = false) ∧ NoStart T u

/-! ## Concrete records and templates used in the examples -/

/-- The record of the specification's example for the short name `sepolia`. -/
def sepoliaChain : ChainConfig where
  shortName := "sepolia".toList
  mainnetName := "Ethereum".toList
  mainnetChainId := "1".toList
  testnetChainId := "11155111".toList
  testnetChainName := "Sepolia".toList

/-- The template of the specification's example. -/
def exampleTemplate : Str :=
  "chain={{mainnetName}}/{{mainnetChainId}}/{{testnetChainId}}/{{testnetChainName}}".toList

/-- A record whose `mainnetName` is the replacement pattern "the matched text". -/
def matchedPatternChain : ChainConfig :=
  { sepoliaChain with mainnetName := [dollar, Char.ofNat 38] }

/-- A record whose `mainnetChainId` is a single opening brace. -/
def braceChain : ChainConfig :=
  { sepoliaChain with mainnetChainId := [lbrace] }

/-- A record whose `mainnetChainId` is the middle of the word `mainnetName`. -/
def netChain : ChainConfig :=
  { sepoliaChain with mainnetChainId := "net".toList }

/-- A record whose `mainnetName` holds the pattern for a literal dollar sign. -/
def dollarChain : ChainConfig :=
  { sepoliaChain with mainnetName := "US$$".toList }

/-- A record whose `mainnetName` is the text of another placeholder token. -/
def nestedChain : ChainConfig :=
  { sepoliaChain with mainnetName := tokMainnetChainId }

/-- A record whose `mainnetName` is the end of the word `testnetChainId`. -/
def suffixChain : ChainConfig :=
  { sepoliaChain with mainnetName := "netChainId".toList }

/-! ## Paths and the file system

A path is the list of its segments below the root (POSIX separator);
`process.cwd()` and `__dirname` are absolute, so every path the code builds is
absolute, and `process.cwd()` is taken to succeed.  The file system is the map
from paths to what is stored there; the calls of the module run one after the
other and nothing else changes the file system in between. -/

/-- An absolute, normalised path. -/
abbrev Path := List Str

/-- The segments of a path string, cut at the separator `/`. -/
def splitSegments : Str → List Str
  | [] => [[]]
  | c :: t =>
    if c = '/' then [] :: splitSegments t
    else
      match splitSegments t with
      | [] => [[c]]
      | seg :: segs => (c :: seg) :: segs

/-- Normalisation of segments appended to an absolute path: empty segments and
`.` are dropped, `..` removes the last segment (the root is its own parent). -/
def normalizeOnto (base : Path) : List Str → Path
  | [] => base
  | seg :: rest =>
    if seg = [] ∨ seg = ".".toList then normalizeOnto base rest
    else if seg = "..".toList then normalizeOnto base.dropLast rest
    else normalizeOnto (base ++ [seg]) rest

/-- The call `path.join(base, ...parts)` for an absolute `base`. -/
def pathJoin (base : Path) (parts : List Str) : Path :=
  normalizeOnto base (parts.flatMap splitSegments)

/-- What a path holds. -/
inductive Node
  | file (content : Str)
  | dir
  deriving DecidableEq, Repr

/-- A file system state. -/
abbrev FS := Path → Option Node

/-- The values a JavaScript `throw` (or a rejected promise) carries here. -/
inductive JsError
  /-- A property read on `undefined` or `null`. -/
  | typeError (property : Str)
  /-- `JSON.parse` on a text that is not JSON. -/
  | syntaxError
  /-- A failed file system call. -/
  | systemError (code : Str) (path : Path)
  /-- A rejection by the prompt or by the clone capability. -/
  | rejected (reason : Nat)
  deriving DecidableEq, Repr

/-- The mutating file system calls of the module. -/
inductive FsOp
  | rm (path : Path)
  | mkdir (path : Path)
  | write (path : Path) (content : Str)
  deriving DecidableEq, Repr

/-- The value `JSON.parse` returns. Of a number only its being zero is ever
observed, so an integer stands for it; `members` lists the own properties of
an object, each key once. -/
inductive Json
  | null
  | bool (b : Bool)
  | num (n : Int)
  | str (s : Str)
  | arr (items : List Json)
  | obj (members : List (Str × Json))

/-- The observable actions of the module, in the order they happen. -/
inductive Event
  /-- The call `inquirer.prompt` with its message. -/
  | prompt (message : Str)
  | consoleLog (message : Str)
  | consoleError (message : Str) (error : JsError)
  /-- The call `clone(url, dest, { shallow: true })`, with the file system it finds. -/
  | clone (url : Str) (dest : Path) (fsAtCall : FS)
  /-- The call `fs.writeFileSync(path, content)`. -/
  | writeFile (path : Path) (content : Str)

/-- A chain configuration read off the registry: the object, or `undefined`. -/
abbrev ChainLookup := Option ChainConfig

/-- What the module takes from its surroundings. -/
structure Env where
  /-- The value of `process.cwd()`. -/
  cwd : Path
  /-- The value of `__dirname`. -/
  moduleDir : Path
  /-- The imported table `CHAIN_CONFIGS`. -/
  chainConfigs : List ChainConfig
  /-- The built-in `JSON.parse`. -/
  jsonParse : Str → Except JsError Json
  /-- The clone capability: the file system it leaves, and the rejection if it fails. -/
  clone : FS → Path → FS × Option JsError
  /-- Failures of mutating calls that the tree alone does not explain
  (permissions, I/O), with the file system the failed call leaves. -/
  mutFault : FS → FsOp → Option (JsError × FS)
  /-- Failures of reads that the tree alone does not explain. -/
  readFault : FS → Path → Option JsError

/-- The state threaded through the module: file system and actions so far. -/
structure World where
  fs : FS
  trace : List Event

/-- How a call ends: with a value, with a thrown error, or with `process.exit`. -/
inductive Outcome (α : Type)
  | ok (value : α)
  | threw (error : JsError)
  | exited (code : Nat)
  deriving DecidableEq, Repr

/-- An effectful computation of the module. -/
def Eff (α : Type) : Type := World → Outcome α × World

/-- Sequencing: a throw or an exit ends the computation. -/
def Eff.bind {α β : Type} (m : Eff α) (f : α → Eff β) : Eff β := fun w =>
  match m w with
  | (.ok a, w1) => f a w1
  | (.threw e, w1) => (.threw e, w1)
  | (.exited n, w1) => (.exited n, w1)

instance : Monad Eff where
  pure a := fun w => (.ok a, w)
  bind := Eff.bind

/-- The statement `throw e`. -/
def throwJs {α : Type} (e : JsError) : Eff α := fun w => (.threw e, w)

/-- The call `process.exit(code)`, which does not return. -/
def processExit {α : Type} (code : Nat) : Eff α := fun w => (.exited code, w)

/-- The statement `try { body } catch (error) { handler }`. -/
def tryCatch {α : Type} (body : Eff α) (handler : JsError → Eff α) : Eff α := fun w =>
  match body w with
  | (.threw e, w1) => handler e w1
  | r => r

/-- Records an action. -/
def emit (e : Event) : Eff Unit := fun w => (.ok (), { w with trace := w.trace ++ [e] })

/-- The call `console.log(chalk...(message))`. -/
def consoleLog (message : Str) : Eff Unit := emit (.consoleLog message)

/-- The call `console.error(chalk.red(message), error)`. -/
def consoleError (message : Str) (error : JsError) : Eff Unit :=
  emit (.consoleError message error)

/-- The call `fs.existsSync(path)`, which never throws. -/
def existsSync (p : Path) : Eff Bool := fun w => (.ok (w.fs p).isSome, w)

/-- The file system after `path` and everything below it is removed. -/
def removeTree (fs : FS) (p : Path) : FS := fun q => if p.isPrefixOf q then none else fs q

/-- The call `fs.rmSync(path, { recursive: true, force: true })`. -/
def rmSync (env : Env) (p : Path) : Eff Unit := fun w =>
  match env.mutFault w.fs (.rm p) with
  | some (e, fs1) => (.threw e, { w with fs := fs1 })
  | none => (.ok (), { w with fs := removeTree w.fs p })

/-- Some segment prefix of the path is a file. -/
def blockedByFile (fs : FS) (p : Path) : Bool :=
  p.inits.any (fun q => match fs q with | some (.file _) => true | _ => false)

/-- The file system after `path` and its missing ancestors are created. -/
def makeDirs (fs : FS) (p : Path) : FS := fun q =>
  if q.isPrefixOf p && (fs q).isNone then some .dir else fs q

/-- The call `fs.mkdirSync(path, { recursive: true })`. -/
def mkdirSync (env : Env) (p : Path) : Eff Unit := fun w =>
  match env.mutFault w.fs (.mkdir p) with
  | some (e, fs1) => (.threw e, { w with fs := fs1 })
  | none =>
    if blockedByFile w.fs p then (.threw (.systemError "EEXIST".toList p), w)
    else (.ok (), { w with fs := makeDirs w.fs p })

/-- The call `fs.readFileSync(path, "utf8")`. -/
def readFileSync (env : Env) (p : Path) : Eff Str := fun w =>
  match env.readFault w.fs p with
  | some e => (.threw e, w)
  | none =>
    match w.fs p with
    | some (.file content) => (.ok content, w)
    | some .dir => (.threw (.systemError "EISDIR".toList p), w)
    | none => (.threw (.systemError "ENOENT".toList p), w)

/-- The file system after `content` is stored at `path`. -/
def storeFile (fs : FS) (p : Path) (content : Str) : FS := fun q =>
  if q = p then some (.file content) else fs q

/-- The call `fs.writeFileSync(path, content)`: the parent must be a directory
and the path must not be one. -/
def writeFileSync (env : Env) (p : Path) (content : Str) : Eff Unit := fun w =>
  let w1 : World := { w with trace := w.trace ++ [.writeFile p content] }
  match env.mutFault w.fs (.write p content) with
  | some (e, fs1) => (.threw e, { w1 with fs := fs1 })
  | none =>
    match w.fs p with
    | some .dir => (.threw (.systemError "EISDIR".toList p), w1)
    | _ =>
      match w.fs p.dropLast with
      | some .dir => (.ok (), { w1 with fs := storeFile w.fs p content })
      | some (.file _) => (.threw (.systemError "ENOTDIR".toList p), w1)
      | none => (.threw (.systemError "ENOENT".toList p), w1)

/-- The call `await clone(url, dest, { shallow: true })`. -/
def cloneRepo (env : Env) (url : Str) (dest : Path) : Eff Unit := fun w =>
  let w1 : World := { w with trace := w.trace ++ [.clone url dest w.fs] }
  match env.clone w.fs dest with
  | (fs1, some e) => (.threw e, { w1 with fs := fs1 })
  | (fs1, none) => (.ok (), { w1 with fs := fs1 })

/-- The call `await inquirer.prompt([...])` read at `overwrite`; `answer` is
what the prompt capability gives. -/
def promptOverwrite (answer : Except JsError Bool) (message : Str) : Eff Bool := fun w =>
  let w1 : World := { w with trace := w.trace ++ [.prompt message] }
  match answer with
  | .ok b => (.ok b, w1)
  | .error e => (.threw e, w1)

/-- The call `JSON.parse(text)`. -/
def jsonParse (env : Env) (text : Str) : Eff Json := fun w =>
  match env.jsonParse text with
  | .ok j => (.ok j, w)
  | .error e => (.threw e, w)

/-! ## JavaScript values read off the manifest -/

/-- The property read `value.key` for a key that no built-in prototype defines
(`workspaces`, `packages`); `none` is `undefined`. -/
def getField (value : Option Json) (key : Str) : Eff (Option Json) :=
  match value with
  | none => throwJs (.typeError key)
  | some .null => throwJs (.typeError key)
  | some (.obj members) => pure (members.lookup key)
  | some _ => pure none

/-- Truthiness, as the operator `!` sees it. -/
def truthy : Option Json → Bool
  | none => false
  | some .null => false
  | some (.bool b) => b
  | some (.num n) => n != 0
  | some (.str s) => !s.isEmpty
  | some (.arr _) => true
  | some (.obj _) => true

/-- The call `Array.isArray(value)`. -/
def isArray : Option Json → Bool
  | some (.arr _) => true
  | _ => false

/-- The property read `chainConfig.field` guarded by the language: it throws a
`TypeError` when `chainConfig` is `undefined`. -/
def readRecord (chainConfig : ChainLookup) (property : Str) : Eff ChainConfig :=
  match chainConfig with
  | some c => pure c
  | none => throwJs (.typeError property)

/-! ## The module `directory.js` -/

/-- The function `getConfigPath(baseDir)`. -/
def getConfigPath (baseDir : Path) : Path :=
  pathJoin baseDir ["packages".toList, "shared".toList, "src".toList, "cw3d.config.ts".toList]

/-- The function `writePackageConfig(projectDir, configContent)`. -/
def writePackageConfig (env : Env) (projectDir : Path) (configContent : Str) : Eff Unit :=
  let configPath := getConfigPath projectDir
  writeFileSync env configPath configContent

/-- The path `path.join(currentDir, "package.json")`. -/
def rootPackageJsonPath (currentDir : Path) : Path :=
  pathJoin currentDir ["package.json".toList]

/-- The path `path.join(currentDir, "packages", "shared")`. -/
def sharedPackageDir (currentDir : Path) : Path :=
  pathJoin currentDir ["packages".toList, "shared".toList]

/-- The property name `workspaces`. -/
def workspacesKey : Str := "workspaces".toList

/-- The property name `packages`. -/
def packagesKey : Str := "packages".toList

/-- The function `isInsideScaffoldAlchemyProject()`. -/
def isInsideScaffoldAlchemyProject (env : Env) : Eff Bool := do
  let currentDir := env.cwd
  let rootPackageJson := rootPackageJsonPath currentDir
  if !(← existsSync rootPackageJson) then
    pure false
  else
    -- the `try` block yields `some b` where it returns `b`, `none` where it falls through
    let returned ← tryCatch
      (do
        let text ← readFileSync env rootPackageJson
        let packageJson ← jsonParse env text
        let workspaces ← getField (some packageJson) workspacesKey
        let projectPackages ← getField workspaces packagesKey
        if !truthy projectPackages || !isArray projectPackages then
          pure (some false)
        else
          pure none)
      (fun _ => pure (some false))
    match returned with
    | some b => pure b
    | none =>
      let packageDir := sharedPackageDir currentDir
      if !(← existsSync packageDir) then
        pure false
      else
        let configPath := getConfigPath currentDir
        if !(← existsSync configPath) then
          pure false
        else
          pure true

/-- The object `{ projectDir, currentDir }` that `setupProjectDirectory` returns. -/
structure ProjectContext where
  projectDir : Path
  currentDir : Path
  deriving DecidableEq, Repr

/-- The message of the overwrite prompt. -/
def overwriteMessage (projectName : Str) : Str :=
  "Directory ".toList ++ projectName
    ++ " already exists. Do you want to overwrite it?".toList

/-- The text printed when the user declines. -/
def cancelledMessage : Str := "Operation cancelled".toList

/-- The text printed on entering the `try` block. -/
def cloningMessage : Str := "\nCloning scaffold-alchemy template...".toList

/-- The path `path.join(projectDir, ".git")`. -/
def gitDir (projectDir : Path) : Path := pathJoin projectDir [".git".toList]

/-- The property whose read comes first when the record is used. -/
def firstProperty : Str := "mainnetName".toList

/-- The text printed before the error in the `catch` block. -/
def failedToCloneMessage : Str := "\nFailed to clone template:".toList

/-- The URL of the template repository. -/
def templateUrl : Str := "https://github.com/alchemyplatform/scaffold-alchemy".toList

/-- The path of the bundled template, `path.join(__dirname, "../templates/cw3d.config.template")`. -/
def templatePath (env : Env) : Path :=
  pathJoin env.moduleDir ["../templates/cw3d.config.template".toList]

/-- The function `setupProjectDirectory(projectName, chain, inquirer)`;
`inquirer` is the answer the prompt capability gives when asked. -/
def setupProjectDirectory (env : Env) (projectName chain : Str)
    (inquirer : Except JsError Bool) : Eff ProjectContext := do
  let currentDir := env.cwd
  let projectDir := pathJoin currentDir [projectName]
  if (← existsSync projectDir) then
    let overwrite ← promptOverwrite inquirer (overwriteMessage projectName)
    if !overwrite then
      consoleLog cancelledMessage
      processExit 1
    rmSync env projectDir
  mkdirSync env projectDir
  tryCatch
    (do
      consoleLog cloningMessage
      let chainConfig := env.chainConfigs.find? (fun c => c.shortName == chain)
      cloneRepo env templateUrl projectDir
      rmSync env (gitDir projectDir)
      let template ← readFileSync env (templatePath env)
      let record ← readRecord chainConfig firstProperty
      let configContent := renderConfig template record
      writePackageConfig env projectDir configContent)
    (fun error => do
      consoleError failedToCloneMessage error
      processExit 1)
  pure { projectDir := projectDir, currentDir := currentDir }

/-- The function `updateProjectConfig(chain)`. -/
def updateProjectConfig (env : Env) (chain : Str) : Eff Unit := do
  let currentDir := env.cwd
  let chainConfig := env.chainConfigs.find? (fun c => c.shortName == chain)
  let template ← readFileSync env (templatePath env)
  let record ← readRecord chainConfig firstProperty
  let configContent := renderConfig template record
  writePackageConfig env currentDir configContent

/-- The run of a computation on a file system, with no action recorded yet. -/
def run {α : Type} (m : Eff α) (fs : FS) : Outcome α × World := m { fs := fs, trace := [] }

/-! ## Names for the parts of `setupProjectDirectory` -/

/-- The body of the `try` block of `setupProjectDirectory`. -/
def cloneAndConfigure (env : Env) (projectDir : Path) (chain : Str) : Eff Unit := do
  consoleLog cloningMessage
  let chainConfig := env.chainConfigs.find? (fun c => c.shortName == chain)
  cloneRepo env templateUrl projectDir
  rmSync env (gitDir projectDir)
  let template ← readFileSync env (templatePath env)
  let record ← readRecord chainConfig firstProperty
  let configContent := renderConfig template record
  writePackageConfig env projectDir configContent

/-- The `catch` block of `setupProjectDirectory`. -/
def reportCloneFailure (error : JsError) : Eff Unit := do
  consoleError failedToCloneMessage error
  processExit 1

/-- The trace once the clone capability has been called from the state `w`. -/
def traceAtClone (w : World) (projectDir : Path) : List Event :=
  w.trace ++ [.consoleLog cloningMessage, .clone templateUrl projectDir w.fs]

/-- The file system in which the template is read: the clone's, without `.git`. -/
def fsAfterClone (env : Env) (fs : FS) (projectDir : Path) : FS :=
  removeTree (env.clone fs projectDir).1 (gitDir projectDir)

/-- The state in which `setupProjectDirectory` enters its `try` block: the
project directory is new, or it existed, the user accepted and it was removed
and created again. -/
def ReadyToClone (env : Env) (projectName : Str) (inquirer : Except JsError Bool) (fs : FS)
    (w : World) : Prop :=
  (fs (pathJoin env.cwd [projectName]) = none ∧ w.trace = [] ∧
      w.fs = makeDirs fs (pathJoin env.cwd [projectName]))
  ∨ (fs (pathJoin env.cwd [projectName]) ≠ none ∧ inquirer = .ok true ∧
      w.trace = [.prompt (overwriteMessage projectName)] ∧
      w.fs = makeDirs (removeTree fs (pathJoin env.cwd [projectName]))
        (pathJoin env.cwd [projectName]))

/-- The manifest of the current directory can be read, parses to an object, and
its `workspaces.packages` is an array. -/
def manifestAccepted (env : Env) (fs : FS) : Bool :=
  match env.readFault fs (rootPackageJsonPath env.cwd) with
  | some _ => false
  | none =>
    match fs (rootPackageJsonPath env.cwd) with
    | some (.file text) =>
      match env.jsonParse text with
      | .ok (.obj members) =>
        match members.lookup workspacesKey with
        | some (.obj ws) =>
          match ws.lookup packagesKey with
          | some (.arr _) => true
          | _ => false
        | _ => false
      | _ => false
    | _ => false

/-! ## Concrete surroundings used in the examples -/

/-- The file system that holds exactly the listed entries. -/
def fsOfList (entries : List (Path × Node)) : FS := fun q => entries.lookup q

/-- The working directory `/home/dev`. -/
def demoCwd : Path := ["home".toList, "dev".toList]

/-- The installed module directory `/opt/cw3d/src/utils`. -/
def demoModuleDir : Path := ["opt".toList, "cw3d".toList, "src".toList, "utils".toList]

/-- The installed tool with its template, and the working directory. -/
def toolEntries : List (Path × Node) :=
  [([], .dir),
   (["opt".toList], .dir),
   (["opt".toList, "cw3d".toList], .dir),
   (["opt".toList, "cw3d".toList, "src".toList], .dir),
   (["opt".toList, "cw3d".toList, "src".toList, "utils".toList], .dir),
   (["opt".toList, "cw3d".toList, "src".toList, "templates".toList], .dir),
   (["opt".toList, "cw3d".toList, "src".toList, "templates".toList,
      "cw3d.config.template".toList], .file exampleTemplate),
   (["home".toList], .dir),
   (["home".toList, "dev".toList], .dir)]

/-- A file system in which `/home/dev/my-dapp` does not exist. -/
def freshFs : FS := fsOfList toolEntries

/-- A file system in which `/home/dev/my-dapp` exists and holds a file. -/
def occupiedFs : FS :=
  fsOfList (toolEntries ++
    [(["home".toList, "dev".toList, "my-dapp".toList], .dir),
     (["home".toList, "dev".toList, "my-dapp".toList, "notes.txt".toList],
        .file "keep".toList)])

/-- A clone that succeeds: it creates `.git` and the package directories. -/
def demoClone (fs : FS) (dest : Path) : FS × Option JsError :=
  (fun q =>
    if q = dest ++ [".git".toList] ∨ q = dest ++ ["packages".toList]
        ∨ q = dest ++ ["packages".toList, "shared".toList]
        ∨ q = dest ++ ["packages".toList, "shared".toList, "src".toList]
    then some .dir else fs q,
   none)

/-- A manifest whose `workspaces.packages` is the empty list. -/
def emptyListManifest : Str := "\x7b\"workspaces\":\x7b\"packages\":[]\x7d\x7d".toList

/-- A manifest whose `workspaces.packages` lists one glob. -/
def oneGlobManifest : Str :=
  "\x7b\"workspaces\":\x7b\"packages\":[\"packages/*\"]\x7d\x7d".toList

/-- The built-in `JSON.parse` on the two manifests of the examples; no other
text is parsed in them. -/
def demoJsonParse (text : Str) : Except JsError Json :=
  if text = emptyListManifest then
    .ok (.obj [(workspacesKey, .obj [(packagesKey, .arr [])])])
  else if text = oneGlobManifest then
    .ok (.obj [(workspacesKey, .obj [(packagesKey, .arr [.str "packages/*".toList])])])
  else .error .syntaxError

/-- The surroundings of the examples: the registry holds the one record
`sepolia`, the clone succeeds and no call fails on its own. -/
def demoEnv : Env where
  cwd := demoCwd
  moduleDir := demoModuleDir
  chainConfigs := [sepoliaChain]
  jsonParse := demoJsonParse
  clone := demoClone
  mutFault := fun _ _ => none
  readFault := fun _ _ => none

/-- A scaffolded project in the working directory, with the given manifest. -/
def projectFs (manifest : Str) : FS :=
  fsOfList (toolEntries ++
    [(["home".toList, "dev".toList, "package.json".toList], .file manifest),
     (["home".toList, "dev".toList, "packages".toList], .dir),
     (["home".toList, "dev".toList, "packages".toList, "shared".toList], .dir),
     (["home".toList, "dev".toList, "packages".toList, "shared".toList, "src".toList], .dir),
     (["home".toList, "dev".toList, "packages".toList, "shared".toList, "src".toList,
        "cw3d.config.ts".toList], .file "export default 1".toList)])

/-! ## Facts about `replace` -/

theorem getSubstitution_of_no_dollar (matched str : Str) (position : Nat) :
    ∀ v : Str, dollar ∉ v → getSubstitution matched str position v = v
  | [], _ => rfl
  | [_], _ => rfl
  | c :: d :: rest, h => by
    have hc : c ≠ dollar := fun e => h (by simp [e])
    have hrest : dollar ∉ d :: rest := fun e => h (List.mem_cons_of_mem _ e)
    rw [getSubstitution, if_neg hc,
      getSubstitution_of_no_dollar matched str position (d :: rest) hrest]

theorem stringIndexOf_cons (pat : Str) (c : Char) (t : Str) :
    stringIndexOf pat (c :: t) =
      if pat.isPrefixOf (c :: t) then some 0 else (stringIndexOf pat t).map (· + 1) := rfl

theorem jsReplace_eq_replaceFirst (tok v : Str) (hv : dollar ∉ v) :
    ∀ s : Str, jsReplace s tok v = replaceFirst tok v s
  | [] => by
    unfold jsReplace stringIndexOf replaceFirst
    by_cases h : tok.isPrefixOf [] = true
    · simp [h, getSubstitution_of_no_dollar _ _ _ v hv]
    · simp [h]
  | c :: t => by
    have ih := jsReplace_eq_replaceFirst tok v hv t
    unfold jsReplace at ih ⊢
    rw [stringIndexOf_cons]
    unfold replaceFirst
    by_cases h : tok.isPrefixOf (c :: t) = true
    · simp [h, getSubstitution_of_no_dollar _ _ _ v hv]
    · simp only [h, if_false, Bool.false_eq_true]
      cases hi : stringIndexOf tok t with
      | none =>
        rw [hi] at ih
        simp only [Option.map_none']
        rw [← ih]
      | some pos =>
        rw [hi] at ih
        simp only [Option.map_some']
        rw [← ih]
        simp [getSubstitution_of_no_dollar _ _ _ v hv, Nat.add_right_comm]

theorem jsReplace_of_countOcc_zero (tok v : Str) :
    ∀ s : Str, countOcc tok s = 0 → jsReplace s tok v = s := by
  have key : ∀ s : Str, countOcc tok s = 0 → stringIndexOf tok s = none := by
    intro s
    induction s with
    | nil =>
      intro h
      unfold countOcc at h
      unfold stringIndexOf
      by_cases hp : tok.isPrefixOf [] = true
      · simp [hp] at h
      · simp [hp]
    | cons c t ih =>
      intro h
      unfold countOcc at h
      rw [stringIndexOf_cons]
      by_cases hp : tok.isPrefixOf (c :: t) = true
      · simp [hp] at h
      · simp only [hp, if_false, Bool.false_eq_true, Nat.zero_add] at h ⊢
        rw [ih h]; rfl
  intro s h
  unfold jsReplace
  rw [key s h]

/-! ## Tokens and texts in which no token starts -/

theorem lbrace_ne_rbrace : lbrace ≠ rbrace := by decide

theorem IsToken.ne_nil {T : Str} (h : IsToken T) : T ≠ [] := by
  obtain ⟨name, rfl, -, -⟩ := h
  simp

theorem isPrefixOf_token_cons {T : Str} (h : IsToken T) (c : Char) (x : Str)
    (hc : c ≠ lbrace) : T.isPrefixOf (c :: x) = false := by
  obtain ⟨name, rfl, -, -⟩ := h
  simp [List.isPrefixOf, Ne.symm hc]

theorem isPrefixOf_token_cons_cons {T : Str} (h : IsToken T) (c d : Char) (x : Str)
    (hd : d ≠ lbrace) : T.isPrefixOf (c :: d :: x) = false := by
  obtain ⟨name, rfl, -, -⟩ := h
  simp [List.isPrefixOf, Ne.symm hd]

theorem isPrefixOf_token_singleton {T : Str} (h : IsToken T) (c : Char) :
    T.isPrefixOf [c] = false := by
  obtain ⟨name, rfl, -, -⟩ := h
  simp [List.isPrefixOf]

theorem isPrefixOf_token_nil {T : Str} (h : IsToken T) : T.isPrefixOf [] = false := by
  obtain ⟨name, rfl, -, -⟩ := h
  rfl

theorem noStart_of_quiet {T : Str} (h : IsToken T) :
    ∀ u : Str, quiet u = true → NoStart T u
  | [], _ => trivial
  | [c], hq => by
    have hc : c ≠ lbrace := by simpa [quiet] using hq
    exact ⟨fun x => isPrefixOf_token_cons h c _ hc, trivial⟩
  | c :: d :: r, hq => by
    have hq2 : (c ≠ lbrace ∨ d ≠ lbrace) ∧ quiet (d :: r) = true := by
      simpa [quiet] using hq
    refine ⟨fun x => ?_, noStart_of_quiet h (d :: r) hq2.2⟩
    rcases hq2.1 with hc | hd
    · exact isPrefixOf_token_cons h c _ hc
    · exact isPrefixOf_token_cons_cons h c d _ hd

theorem quiet_of_no_lbrace : ∀ u : Str, lbrace ∉ u → quiet u = true
  | [], _ => rfl
  | [c], h => by
    have hc : c ≠ lbrace := fun e => h (by simp [e])
    simpa [quiet] using hc
  | c :: d :: r, h => by
    have hc : c ≠ lbrace := fun e => h (by simp [e])
    have hr : lbrace ∉ d :: r := fun e => h (List.mem_cons_of_mem _ e)
    have ih := quiet_of_no_lbrace (d :: r) hr
    simp [quiet, hc, ih]

theorem noStart_of_no_lbrace {T : Str} (h : IsToken T) (u : Str) (hu : lbrace ∉ u) :
    NoStart T u :=
  noStart_of_quiet h u (quiet_of_no_lbrace u hu)

/-- The text of a token after its first brace is quiet. -/
theorem quiet_token_tail {T : Str} (h : IsToken T) : quiet T.tail = true := by
  obtain ⟨name, rfl, hl, -⟩ := h
  have hq : quiet (name ++ [rbrace, rbrace]) = true := by
    apply quiet_of_no_lbrace
    simp [hl, lbrace_ne_rbrace]
  cases name with
  | nil => simp [quiet, lbrace_ne_rbrace.symm]
  | cons a name =>
    have ha : a ≠ lbrace := fun e => hl (by simp [e])
    simp only [List.tail_cons, List.cons_append] at hq ⊢
    simp [quiet, ha, hq]

/-- A token that is a prefix of a text starting with another token is that
token. -/
theorem token_prefix_unique {T U : Str} (hT : IsToken T) (hU : IsToken U) (x : Str)
    (h : U.isPrefixOf (T ++ x) = true) : U = T := by
  obtain ⟨n, rfl, hnl, hnr⟩ := hT
  obtain ⟨m, rfl, hml, hmr⟩ := hU
  have key : ∀ (m n : Str), rbrace ∉ m → rbrace ∉ n →
      (m ++ [rbrace, rbrace]).isPrefixOf (n ++ [rbrace, rbrace] ++ x) = true → m = n := by
    intro m
    induction m with
    | nil =>
      intro n _ hn hp
      cases n with
      | nil => rfl
      | cons b n =>
        have hb : b ≠ rbrace := fun e => hn (by simp [e])
        simp [List.isPrefixOf, Ne.symm hb] at hp
    | cons a m ih =>
      intro n hm hn hp
      have ha : a ≠ rbrace := fun e => hm (by simp [e])
      cases n with
      | nil => simp [List.isPrefixOf, ha] at hp
      | cons b n =>
        have hm2 : rbrace ∉ m := fun e => hm (List.mem_cons_of_mem _ e)
        have hn2 : rbrace ∉ n := fun e => hn (List.mem_cons_of_mem _ e)
        simp only [List.cons_append, List.isPrefixOf, Bool.and_eq_true, beq_iff_eq] at hp
        rw [hp.1, ih n hm2 hn2 (by simpa using hp.2)]
  have hp : (m ++ [rbrace, rbrace]).isPrefixOf (n ++ [rbrace, rbrace] ++ x) = true := by
    simpa [List.isPrefixOf] using h
  rw [key m n hmr hnr hp]

theorem noStart_token {T U : Str} (hT : IsToken T) (hU : IsToken U) (hne : U ≠ T) :
    NoStart U T := by
  have hq := noStart_of_quiet hU T.tail (quiet_token_tail hT)
  obtain ⟨n, rfl, hnl, hnr⟩ := id hT
  refine ⟨fun x => ?_, hq⟩
  cases hp : List.isPrefixOf U (lbrace :: (lbrace :: (n ++ [rbrace, rbrace])) ++ x) with
  | false => rfl
  | true => exact absurd (token_prefix_unique hT hU x (by simpa using hp)) hne

/-! ## Replacement and counting across a text in which the token cannot start -/

theorem replaceFirst_cons (tok v : Str) (c : Char) (t : Str) :
    replaceFirst tok v (c :: t) =
      if tok.isPrefixOf (c :: t) then v ++ (c :: t).drop tok.length
      else c :: replaceFirst tok v t := rfl

theorem countOcc_cons (pat : Str) (c : Char) (t : Str) :
    countOcc pat (c :: t) = (if pat.isPrefixOf (c :: t) then 1 else 0) + countOcc pat t := rfl

theorem replaceFirst_noStart (T v : Str) :
    ∀ (u x : Str), NoStart T u → replaceFirst T v (u ++ x) = u ++ replaceFirst T v x
  | [], _, _ => rfl
  | c :: u, x, h => by
    have h1 : T.isPrefixOf (c :: (u ++ x)) = false := h.1 x
    rw [List.cons_append, replaceFirst_cons, h1]
    simp [replaceFirst_noStart T v u x h.2]

theorem countOcc_noStart (T : Str) :
    ∀ (u x : Str), NoStart T u → countOcc T (u ++ x) = countOcc T x
  | [], _, _ => rfl
  | c :: u, x, h => by
    have h1 : T.isPrefixOf (c :: (u ++ x)) = false := h.1 x
    rw [List.cons_append, countOcc_cons, h1]
    simp [countOcc_noStart T u x h.2]

theorem replaceChain_noStart :
    ∀ (ps : List (Str × Str)) (u x : Str), (∀ p ∈ ps, NoStart p.1 u) →
      replaceChain ps (u ++ x) = u ++ replaceChain ps x
  | [], _, _, _ => rfl
  | p :: ps, u, x, h => by
    have hp : NoStart p.1 u := h p (List.mem_cons_self _ _)
    have hps : ∀ q ∈ ps, NoStart q.1 u := fun q hq => h q (List.mem_cons_of_mem _ hq)
    show replaceChain ps (replaceFirst p.1 p.2 (u ++ x)) = _
    rw [replaceFirst_noStart _ _ u x hp, replaceChain_noStart ps u _ hps]
    rfl

theorem replaceChain_cons (p : Str × Str) (ps : List (Str × Str)) (s : Str) :
    replaceChain (p :: ps) s = replaceChain ps (replaceFirst p.1 p.2 s) := rfl

theorem replaceFirst_self_append (T v x : Str) (hT : T ≠ []) :
    replaceFirst T v (T ++ x) = v ++ x := by
  cases T with
  | nil => exact absurd rfl hT
  | cons a T =>
    have hp : (a :: T).isPrefixOf (a :: T ++ x) = true := by
      rw [List.isPrefixOf_iff_prefix]; exact List.prefix_append _ _
    rw [List.cons_append] at hp ⊢
    rw [replaceFirst_cons, hp]
    simp

theorem countOcc_le_append (T : Str) : ∀ (u x : Str), countOcc T x ≤ countOcc T (u ++ x)
  | [], _ => Nat.le_refl _
  | c :: u, x => by
    rw [List.cons_append, countOcc_cons]
    exact Nat.le_trans (countOcc_le_append T u x) (Nat.le_add_left _ _)

theorem countOcc_self_append (T x : Str) (hT : T ≠ []) :
    countOcc T x + 1 ≤ countOcc T (T ++ x) := by
  cases T with
  | nil => exact absurd rfl hT
  | cons a T =>
    have hp : (a :: T).isPrefixOf (a :: T ++ x) = true := by
      rw [List.isPrefixOf_iff_prefix]; exact List.prefix_append _ _
    rw [List.cons_append] at hp ⊢
    rw [countOcc_cons, hp]
    have := countOcc_le_append (a :: T) T x
    simp only [if_true]
    omega

theorem countOcc_cons_eq_zero {T : Str} {c : Char} {t : Str} (h : countOcc T (c :: t) = 0) :
    T.isPrefixOf (c :: t) = false ∧ countOcc T t = 0 := by
  rw [countOcc_cons] at h
  cases hp : T.isPrefixOf (c :: t) with
  | false => simp [hp] at h; exact ⟨rfl, h⟩
  | true => simp [hp] at h

/-! ## The left-to-right substitution -/

theorem substituteFrom_skip (ps : List (Str × Str)) :
    ∀ (a b : Str), substituteFrom ps a.length (a ++ b) = substituteFrom ps 0 b
  | [], _ => rfl
  | _ :: a, b => by
    rw [List.length_cons, List.cons_append, substituteFrom]
    exact substituteFrom_skip ps a b

theorem find_erasePair (T u : Str) (hT : T.isPrefixOf u = false) :
    ∀ ps : List (Str × Str),
      (erasePair T ps).find? (fun p => p.1.isPrefixOf u)
        = ps.find? (fun p => p.1.isPrefixOf u)
  | [] => rfl
  | q :: ps => by
    unfold erasePair
    by_cases hq : q.1 = T
    · rw [if_pos hq, List.find?_cons_of_neg]
      rw [hq, hT]; simp
    · rw [if_neg hq, List.find?_cons, List.find?_cons, find_erasePair T u hT ps]

theorem substituteFrom_erasePair (T : Str) (ps : List (Str × Str)) :
    ∀ (x : Str) (k : Nat), countOcc T x = 0 →
      substituteFrom (erasePair T ps) k x = substituteFrom ps k x
  | [], k, _ => by cases k <;> rfl
  | c :: t, k + 1, h => by
    rw [substituteFrom, substituteFrom]
    exact substituteFrom_erasePair T ps t k (countOcc_cons_eq_zero h).2
  | c :: t, 0, h => by
    have h1 := countOcc_cons_eq_zero h
    rw [substituteFrom, substituteFrom, find_erasePair T (c :: t) h1.1 ps]
    cases ps.find? (fun p => p.1.isPrefixOf (c :: t)) with
    | none => simp only; rw [substituteFrom_erasePair T ps t 0 h1.2]
    | some p => simp only; rw [substituteFrom_erasePair T ps t _ h1.2]

theorem erasePair_cons (T : Str) (q : Str × Str) (ps : List (Str × Str)) :
    erasePair T (q :: ps) = if q.1 = T then ps else q :: erasePair T ps := rfl

theorem mem_of_mem_erasePair {T : Str} {q : Str × Str} :
    ∀ {ps : List (Str × Str)}, q ∈ erasePair T ps → q ∈ ps
  | [], h => h
  | p :: ps, h => by
    unfold erasePair at h
    by_cases hp : p.1 = T
    · rw [if_pos hp] at h; exact List.mem_cons_of_mem _ h
    · rw [if_neg hp] at h
      rcases List.mem_cons.1 h with h | h
      · rw [h]; exact List.mem_cons_self _ _
      · exact List.mem_cons_of_mem _ (mem_of_mem_erasePair h)

theorem mem_erasePair_of_ne {T : Str} {q : Str × Str} (hq : q.1 ≠ T) :
    ∀ {ps : List (Str × Str)}, q ∈ ps → q ∈ erasePair T ps
  | [], h => h
  | p :: ps, h => by
    unfold erasePair
    by_cases hp : p.1 = T
    · rw [if_pos hp]
      rcases List.mem_cons.1 h with h | h
      · rw [h] at hq; exact absurd hp hq
      · exact h
    · rw [if_neg hp]
      rcases List.mem_cons.1 h with h | h
      · rw [h]; exact List.mem_cons_self _ _
      · exact List.mem_cons_of_mem _ (mem_erasePair_of_ne hq h)

theorem openersStartTokens_cons (toks : List Str) (c : Char) (t : Str) :
    openersStartTokens toks (c :: t) =
      ((!([lbrace, lbrace].isPrefixOf (c :: t)) || toks.any (fun T => T.isPrefixOf (c :: t)))
        && openersStartTokens toks t) := rfl

theorem openersStartTokens_append (toks : List Str) :
    ∀ (u x : Str), openersStartTokens toks (u ++ x) = true → openersStartTokens toks x = true
  | [], _, h => h
  | c :: u, x, h => by
    rw [List.cons_append, openersStartTokens_cons, Bool.and_eq_true] at h
    exact openersStartTokens_append toks u x h.2

/-- Tokens that never occur in the text can be dropped from the list of tokens
that openers must start. -/
theorem openersStartTokens_mono (toks toks2 : List Str) :
    ∀ x : Str, (∀ T ∈ toks, T ∈ toks2 ∨ countOcc T x = 0) →
      openersStartTokens toks x = true → openersStartTokens toks2 x = true
  | [], _, _ => rfl
  | c :: t, hT, h => by
    rw [openersStartTokens_cons, Bool.and_eq_true] at h ⊢
    refine ⟨?_, openersStartTokens_mono toks toks2 t (fun T hm => ?_) h.2⟩
    · rw [Bool.or_eq_true] at h ⊢
      rcases h.1 with h1 | h1
      · exact Or.inl h1
      · right
        rw [List.any_eq_true] at h1 ⊢
        obtain ⟨T, hm, hp⟩ := h1
        rcases hT T hm with h2 | h2
        · exact ⟨T, h2, hp⟩
        · rw [(countOcc_cons_eq_zero h2).1] at hp; exact absurd hp (by simp)
    · rcases hT T hm with h2 | h2
      · exact Or.inl h2
      · exact Or.inr (countOcc_cons_eq_zero h2).2

/-! ## The chained replacements computed on a text that starts with a token -/

theorem replaceChain_token_append :
    ∀ (ps : List (Str × Str)), (∀ q ∈ ps, IsToken q.1 ∧ lbrace ∉ q.2) →
    ∀ (T : Str), IsToken T → ∀ (s : Str) (p : Str × Str),
      ps.find? (fun q => q.1.isPrefixOf s) = some p → p.1 = T → T.isPrefixOf s = true →
      ∀ post : Str, replaceChain ps (T ++ post) = p.2 ++ replaceChain (erasePair T ps) post
  | [], _, _, _, _, _, hf, _, _, _ => by simp at hf
  | q :: ps, hps, T, hT, s, p, hf, hpT, hTs, post => by
    have hq := hps q (List.mem_cons_self _ _)
    have hps2 : ∀ r ∈ ps, IsToken r.1 ∧ lbrace ∉ r.2 :=
      fun r hr => hps r (List.mem_cons_of_mem _ hr)
    rw [replaceChain_cons]
    rw [List.find?_cons] at hf
    cases hqs : q.1.isPrefixOf s with
    | true =>
      rw [hqs] at hf
      have hqp : q = p := by simpa using hf
      have hqT : q.1 = T := by rw [hqp]; exact hpT
      rw [hqT, replaceFirst_self_append T q.2 post hT.ne_nil,
        replaceChain_noStart ps q.2 post
          (fun r hr => noStart_of_no_lbrace (hps2 r hr).1 q.2 hq.2)]
      rw [erasePair_cons, if_pos hqT, hqp]
    | false =>
      rw [hqs] at hf
      have hne : q.1 ≠ T := by
        intro e
        rw [e, hTs] at hqs
        exact absurd hqs (by simp)
      have ih := replaceChain_token_append ps hps2 T hT s p (by simpa using hf) hpT hTs
        (replaceFirst q.1 q.2 post)
      rw [replaceFirst_noStart q.1 q.2 T post (noStart_token hT hq.1 hne), ih]
      rw [erasePair_cons, if_neg hne, replaceChain_cons]

theorem replaceChain_single_lbrace :
    ∀ (ps : List (Str × Str)), (∀ q ∈ ps, IsToken q.1 ∧ lbrace ∉ q.2) →
      replaceChain ps [lbrace] = [lbrace]
  | [], _ => rfl
  | q :: ps, hps => by
    have hq := hps q (List.mem_cons_self _ _)
    rw [replaceChain_cons, replaceFirst_cons, isPrefixOf_token_singleton hq.1]
    simp only [Bool.false_eq_true, if_false]
    have h0 : replaceFirst q.1 q.2 [] = [] := by
      unfold replaceFirst
      rw [isPrefixOf_token_nil hq.1]; rfl
    rw [h0]
    exact replaceChain_single_lbrace ps (fun r hr => hps r (List.mem_cons_of_mem _ hr))

theorem substituteFrom_noStart (ps : List (Str × Str)) :
    ∀ (u x : Str), (∀ q ∈ ps, NoStart q.1 u) →
      substituteFrom ps 0 (u ++ x) = u ++ substituteFrom ps 0 x
  | [], _, _ => rfl
  | c :: u, x, h => by
    have hnone : ps.find? (fun p => p.1.isPrefixOf (c :: (u ++ x))) = none := by
      rw [List.find?_eq_none]
      intro q hq
      have h1 : q.1.isPrefixOf (c :: (u ++ x)) = false := (h q hq).1 x
      rw [h1]; simp
    rw [List.cons_append, substituteFrom, hnone]
    simp only
    rw [substituteFrom_noStart ps u x (fun q hq => (h q hq).2)]
    rfl

theorem replaceChain_nil :
    ∀ (ps : List (Str × Str)), (∀ q ∈ ps, IsToken q.1 ∧ lbrace ∉ q.2) →
      replaceChain ps [] = []
  | [], _ => rfl
  | q :: ps, hps => by
    have hq := hps q (List.mem_cons_self _ _)
    have h0 : replaceFirst q.1 q.2 [] = [] := by
      unfold replaceFirst
      rw [isPrefixOf_token_nil hq.1]; rfl
    rw [replaceChain_cons, h0]
    exact replaceChain_nil ps (fun r hr => hps r (List.mem_cons_of_mem _ hr))

theorem countOcc_token_nil {U : Str} (hU : IsToken U) : countOcc U [] = 0 := by
  unfold countOcc
  rw [isPrefixOf_token_nil hU]; rfl

/-- The chained literal replacements compute the left-to-right substitution and
leave no token behind, on every text in which each token occurs at most once
and openers start tokens, when the values hold no opening brace. -/
theorem replaceChain_spec :
    ∀ (n : Nat) (ps : List (Str × Str)) (s : Str), s.length ≤ n →
      (∀ q ∈ ps, IsToken q.1 ∧ lbrace ∉ q.2) →
      openersStartTokens (ps.map Prod.fst) s = true →
      (∀ q ∈ ps, countOcc q.1 s ≤ 1) →
      replaceChain ps s = substituteFrom ps 0 s ∧
        ∀ U : Str, IsToken U → (U ∈ ps.map Prod.fst ∨ countOcc U s = 0) →
          countOcc U (replaceChain ps s) = 0 := by
  intro n
  induction n with
  | zero =>
    intro ps s hn hps _ _
    have hs : s = [] := List.length_eq_zero.1 (Nat.le_zero.1 hn)
    subst hs
    rw [replaceChain_nil ps hps]
    exact ⟨by cases ps <;> rfl, fun U hU _ => countOcc_token_nil hU⟩
  | succ m ih =>
    intro ps s hn hps hopen hcount
    -- a step over a text `u` in which no token starts
    have step : ∀ (u x : Str), s = u ++ x → u ≠ [] → quiet u = true →
        replaceChain ps s = substituteFrom ps 0 s ∧
          ∀ U : Str, IsToken U → (U ∈ ps.map Prod.fst ∨ countOcc U s = 0) →
            countOcc U (replaceChain ps s) = 0 := by
      intro u x hs hu hq
      subst hs
      have hlen : x.length ≤ m := by
        have : 0 < u.length := List.length_pos.2 hu
        rw [List.length_append] at hn
        omega
      have hns : ∀ q ∈ ps, NoStart q.1 u := fun q hq2 => noStart_of_quiet (hps q hq2).1 u hq
      obtain ⟨h1, h2⟩ := ih ps x hlen hps (openersStartTokens_append _ u x hopen)
        (fun q hq2 => Nat.le_trans (countOcc_le_append q.1 u x) (hcount q hq2))
      rw [replaceChain_noStart ps u x hns, substituteFrom_noStart ps u x hns, h1]
      refine ⟨rfl, fun U hU hmem => ?_⟩
      rw [← h1, countOcc_noStart U u _ (noStart_of_quiet hU u hq)]
      refine h2 U hU ?_
      rcases hmem with hmem | hmem
      · exact Or.inl hmem
      · right
        rw [countOcc_noStart U u x (noStart_of_quiet hU u hq)] at hmem
        exact hmem
    cases s with
    | nil =>
      rw [replaceChain_nil ps hps]
      exact ⟨by cases ps <;> rfl, fun U hU _ => countOcc_token_nil hU⟩
    | cons c t =>
      cases hfind : ps.find? (fun q => q.1.isPrefixOf (c :: t)) with
      | some p =>
        have hpre : p.1.isPrefixOf (c :: t) = true := by
          have := List.find?_some hfind
          simpa using this
        have hp : p ∈ ps := List.mem_of_find?_eq_some hfind
        have hpT := (hps p hp).1
        obtain ⟨post, hs⟩ := List.isPrefixOf_iff_prefix.1 hpre
        have hc0 : countOcc p.1 post = 0 := by
          have h1 := countOcc_self_append p.1 post hpT.ne_nil
          have h2 := hcount p hp
          rw [← hs] at h2
          omega
        have hlen : post.length ≤ m := by
          have : 0 < p.1.length := List.length_pos.2 hpT.ne_nil
          rw [← hs, List.length_append] at hn
          omega
        have hps2 : ∀ q ∈ erasePair p.1 ps, IsToken q.1 ∧ lbrace ∉ q.2 :=
          fun q hq => hps q (mem_of_mem_erasePair hq)
        have hopen2 : openersStartTokens ((erasePair p.1 ps).map Prod.fst) post = true := by
          rw [← hs] at hopen
          refine openersStartTokens_mono _ _ post (fun T hT => ?_)
            (openersStartTokens_append _ p.1 post hopen)
          obtain ⟨q, hq, rfl⟩ := List.mem_map.1 hT
          by_cases hqp : q.1 = p.1
          · right; rw [hqp]; exact hc0
          · left; exact List.mem_map.2 ⟨q, mem_erasePair_of_ne hqp hq, rfl⟩
        have hcount2 : ∀ q ∈ erasePair p.1 ps, countOcc q.1 post ≤ 1 := by
          intro q hq
          have h1 := hcount q (mem_of_mem_erasePair hq)
          rw [← hs] at h1
          exact Nat.le_trans (countOcc_le_append q.1 p.1 post) h1
        obtain ⟨h1, h2⟩ := ih (erasePair p.1 ps) post hlen hps2 hopen2 hcount2
        have hchain : replaceChain ps (c :: t) = p.2 ++ replaceChain (erasePair p.1 ps) post := by
          rw [← hs]
          exact replaceChain_token_append ps hps p.1 hpT (c :: t) p hfind rfl hpre post
        have hsub : substituteFrom ps 0 (c :: t) = p.2 ++ substituteFrom ps 0 post := by
          rw [substituteFrom, hfind]
          simp only
          obtain ⟨a, T2, hT2⟩ := List.exists_cons_of_ne_nil hpT.ne_nil
          rw [hT2, List.cons_append] at hs
          have ht : t = T2 ++ post := (List.cons.inj hs).2.symm
          rw [hT2, ht, List.length_cons, Nat.add_sub_cancel, substituteFrom_skip]
        rw [hchain, hsub, h1, substituteFrom_erasePair p.1 ps post 0 hc0]
        refine ⟨rfl, fun U hU hmem => ?_⟩
        rw [← substituteFrom_erasePair p.1 ps post 0 hc0, ← h1,
          countOcc_noStart U p.2 _ (noStart_of_no_lbrace hU p.2 (hps p hp).2)]
        refine h2 U hU ?_
        rcases hmem with hmem | hmem
        · obtain ⟨q, hq, rfl⟩ := List.mem_map.1 hmem
          by_cases hqp : q.1 = p.1
          · right; rw [hqp]; exact hc0
          · left; exact List.mem_map.2 ⟨q, mem_erasePair_of_ne hqp hq, rfl⟩
        · right
          rw [← hs] at hmem
          have := countOcc_le_append U p.1 post
          omega
      | none =>
        have hnone : (ps.map Prod.fst).any (fun T => T.isPrefixOf (c :: t)) = false := by
          rw [List.find?_eq_none] at hfind
          rw [List.any_eq_false]
          intro T hT
          obtain ⟨q, hq, rfl⟩ := List.mem_map.1 hT
          exact hfind q hq
        have hno2 : [lbrace, lbrace].isPrefixOf (c :: t) = false := by
          rw [openersStartTokens_cons, hnone] at hopen
          have := hopen
          simp only [Bool.or_false, Bool.and_eq_true, Bool.not_eq_true'] at this
          exact this.1
        by_cases hc : c = lbrace
        · subst hc
          cases t with
          | nil =>
            rw [replaceChain_single_lbrace ps hps]
            refine ⟨?_, fun U hU _ => ?_⟩
            · rw [substituteFrom, hfind]
              simp only
              cases ps <;> rfl
            · rw [countOcc_cons, isPrefixOf_token_singleton hU, countOcc_token_nil hU]
              rfl
          | cons d t2 =>
            have hd : d ≠ lbrace := by
              intro e
              subst e
              simp [List.isPrefixOf] at hno2
            exact step [lbrace, d] t2 rfl (by simp) (by simp [quiet, hd])
        · exact step [c] t rfl (by simp) (by simp [quiet, hc])

/-! ## The four placeholder tokens -/

theorem isToken_tokMainnetName : IsToken tokMainnetName :=
  ⟨"mainnetName".toList, by decide, by decide, by decide⟩

theorem isToken_tokMainnetChainId : IsToken tokMainnetChainId :=
  ⟨"mainnetChainId".toList, by decide, by decide, by decide⟩

theorem isToken_tokTestnetChainId : IsToken tokTestnetChainId :=
  ⟨"testnetChainId".toList, by decide, by decide, by decide⟩

theorem isToken_tokTestnetChainName : IsToken tokTestnetChainName :=
  ⟨"testnetChainName".toList, by decide, by decide, by decide⟩

theorem isToken_of_mem_placeholderTokens {T : Str} (h : T ∈ placeholderTokens) : IsToken T := by
  simp only [placeholderTokens, List.mem_cons, List.mem_singleton, List.not_mem_nil,
    or_false] at h
  rcases h with rfl | rfl | rfl | rfl
  · exact isToken_tokMainnetName
  · exact isToken_tokMainnetChainId
  · exact isToken_tokTestnetChainId
  · exact isToken_tokTestnetChainName

theorem isToken_placeholder (ph : Placeholder) : IsToken ph.token := by
  cases ph
  · exact isToken_tokMainnetName
  · exact isToken_tokMainnetChainId
  · exact isToken_tokTestnetChainId
  · exact isToken_tokTestnetChainName

theorem map_fst_substitutionPairs (c : ChainConfig) :
    (substitutionPairs c).map Prod.fst = placeholderTokens := rfl

/-- When no field value holds the pattern character, the four `replace` calls
are four literal first-occurrence replacements. -/
theorem renderConfig_eq_replaceChain (template : Str) (c : ChainConfig)
    (h : ∀ v ∈ fieldValues c, dollar ∉ v) :
    renderConfig template c = replaceChain (substitutionPairs c) template := by
  have h1 : dollar ∉ c.mainnetName := h _ (by simp [fieldValues])
  have h2 : dollar ∉ c.mainnetChainId := h _ (by simp [fieldValues])
  have h3 : dollar ∉ c.testnetChainId := h _ (by simp [fieldValues])
  have h4 : dollar ∉ c.testnetChainName := h _ (by simp [fieldValues])
  unfold renderConfig
  rw [jsReplace_eq_replaceFirst _ _ h1, jsReplace_eq_replaceFirst _ _ h2,
    jsReplace_eq_replaceFirst _ _ h3, jsReplace_eq_replaceFirst _ _ h4]
  rfl

theorem substitutionPairs_ok (c : ChainConfig) (h : ∀ v ∈ fieldValues c, lbrace ∉ v) :
    ∀ q ∈ substitutionPairs c, IsToken q.1 ∧ lbrace ∉ q.2 := by
  intro q hq
  simp only [substitutionPairs, List.mem_cons, List.mem_singleton, List.not_mem_nil,
    or_false] at hq
  rcases hq with rfl | rfl | rfl | rfl
  · exact ⟨isToken_tokMainnetName, h _ (by simp [fieldValues])⟩
  · exact ⟨isToken_tokMainnetChainId, h _ (by simp [fieldValues])⟩
  · exact ⟨isToken_tokTestnetChainId, h _ (by simp [fieldValues])⟩
  · exact ⟨isToken_tokTestnetChainName, h _ (by simp [fieldValues])⟩

theorem render_spec (template : Str) (c : ChainConfig)
    (hOnce : ∀ T ∈ placeholderTokens, countOcc T template ≤ 1)
    (hOpen : openersStartTokens placeholderTokens template = true)
    (hVals : ∀ v ∈ fieldValues c, lbrace ∉ v ∧ dollar ∉ v) :
    renderConfig template c = substituteAll c template ∧
      ∀ T ∈ placeholderTokens, countOcc T (renderConfig template c) = 0 := by
  rw [renderConfig_eq_replaceChain template c (fun v hv => (hVals v hv).2)]
  have hcount : ∀ q ∈ substitutionPairs c, countOcc q.1 template ≤ 1 := by
    intro q hq
    apply hOnce
    rw [← map_fst_substitutionPairs c]
    exact List.mem_map_of_mem _ hq
  obtain ⟨h1, h2⟩ := replaceChain_spec template.length (substitutionPairs c) template
    (Nat.le_refl _) (substitutionPairs_ok c (fun v hv => (hVals v hv).1))
    (by rw [map_fst_substitutionPairs]; exact hOpen) hcount
  refine ⟨h1, fun T hT => h2 T (isToken_of_mem_placeholderTokens hT) (Or.inl ?_)⟩
  rw [map_fst_substitutionPairs]
  exact hT

/-- One literal replacement of a token that occurs at most once leaves neither
that token nor any token that was absent. -/
theorem replaceFirst_leaves_none (T v t : Str) (hT : IsToken T) (hv : lbrace ∉ v)
    (hOpen : openersStartTokens [T] t = true) (hc : countOcc T t ≤ 1) :
    ∀ U : Str, IsToken U → (U = T ∨ countOcc U t = 0) →
      countOcc U (replaceFirst T v t) = 0 := by
  have hps : ∀ q ∈ [(T, v)], IsToken q.1 ∧ lbrace ∉ q.2 := by
    intro q hq
    rw [List.mem_singleton] at hq
    rw [hq]
    exact ⟨hT, hv⟩
  have hcount : ∀ q ∈ [(T, v)], countOcc q.1 t ≤ 1 := by
    intro q hq
    rw [List.mem_singleton] at hq
    rw [hq]
    exact hc
  obtain ⟨-, h2⟩ := replaceChain_spec t.length [(T, v)] t (Nat.le_refl _) hps hOpen hcount
  intro U hU hmem
  refine h2 U hU ?_
  rcases hmem with rfl | h
  · exact Or.inl (by simp)
  · exact Or.inr h

theorem replaceFirst_at_only_occurrence (T v : Str) (hT : T ≠ []) :
    ∀ (pre post : Str), countOcc T (pre ++ T ++ post) ≤ 1 →
      replaceFirst T v (pre ++ T ++ post) = pre ++ v ++ post
  | [], post, _ => by
    rw [List.nil_append, List.nil_append]
    exact replaceFirst_self_append T v post hT
  | a :: pre, post, h => by
    have h1 : countOcc T post + 1 ≤ countOcc T (T ++ post) := countOcc_self_append T post hT
    have h2 : countOcc T (T ++ post) ≤ countOcc T (pre ++ (T ++ post)) :=
      countOcc_le_append T pre (T ++ post)
    rw [List.append_assoc] at h ⊢
    rw [List.cons_append, countOcc_cons] at h
    rw [List.cons_append, replaceFirst_cons]
    cases hp : T.isPrefixOf (a :: (pre ++ (T ++ post))) with
    | true =>
      rw [hp] at h
      simp only [if_true] at h
      omega
    | false =>
      rw [hp] at h
      simp only [Bool.false_eq_true, if_false, Nat.zero_add] at h ⊢
      have ih := replaceFirst_at_only_occurrence T v hT pre post
        (by rw [List.append_assoc]; exact h)
      rw [List.append_assoc] at ih
      rw [ih]
      simp

/-! ## Running the module -/

theorem bind_apply {α β : Type} (m : Eff α) (f : α → Eff β) (w : World) :
    (m >>= f) w =
      match m w with
      | (.ok a, w1) => f a w1
      | (.threw e, w1) => (.threw e, w1)
      | (.exited n, w1) => (.exited n, w1) := rfl

theorem pure_apply {α : Type} (a : α) (w : World) : (pure a : Eff α) w = (.ok a, w) := rfl

theorem setup_declined (env : Env) (projectName chain : Str) (fs : FS)
    (hExists : fs (pathJoin env.cwd [projectName]) ≠ none) :
    run (setupProjectDirectory env projectName chain (.ok false)) fs
      = (.exited 1, { fs := fs, trace := [.prompt (overwriteMessage projectName),
          .consoleLog cancelledMessage] }) := by
  have h : (fs (pathJoin env.cwd [projectName])).isSome = true := by
    cases hfs : fs (pathJoin env.cwd [projectName]) with
    | none => exact absurd hfs hExists
    | some _ => rfl
  simp [run, setupProjectDirectory, bind_apply, pure_apply, existsSync, h, promptOverwrite,
    consoleLog, emit, processExit]

theorem isPrefixOf_antisymm {p q : Path} (h1 : p.isPrefixOf q = true)
    (h2 : q.isPrefixOf p = true) : q = p := by
  rw [List.isPrefixOf_iff_prefix] at h1 h2
  exact List.IsPrefix.eq_of_length_le h2 h1.length_le

theorem isPrefixOf_self (p : Path) : p.isPrefixOf p = true := by
  rw [List.isPrefixOf_iff_prefix]

theorem makeDirs_removeTree_self (fs : FS) (p : Path) :
    makeDirs (removeTree fs p) p p = some .dir := by
  simp [makeDirs, removeTree, isPrefixOf_self]

theorem makeDirs_removeTree_below (fs : FS) (p q : Path) (h : p.isPrefixOf q = true)
    (hne : q ≠ p) : makeDirs (removeTree fs p) p q = none := by
  have h2 : q.isPrefixOf p = false := by
    cases hq : q.isPrefixOf p with
    | false => rfl
    | true => exact absurd (isPrefixOf_antisymm h hq) hne
  simp [makeDirs, removeTree, h, h2]

theorem setup_unfold (env : Env) (projectName chain : Str) (inquirer : Except JsError Bool) :
    setupProjectDirectory env projectName chain inquirer = (do
      let currentDir := env.cwd
      let projectDir := pathJoin currentDir [projectName]
      if (← existsSync projectDir) then
        let overwrite ← promptOverwrite inquirer (overwriteMessage projectName)
        if !overwrite then
          consoleLog cancelledMessage
          processExit 1
        rmSync env projectDir
      mkdirSync env projectDir
      tryCatch (cloneAndConfigure env projectDir chain) reportCloneFailure
      pure { projectDir := projectDir, currentDir := currentDir }) := rfl

/-- The `try`/`catch` statement ends in one of three ways: an error reported
before any write, an error reported after the write call, or success. -/
theorem tryCatch_cases (env : Env) (projectDir : Path) (chain : Str) (w : World) :
    (∃ (e : JsError) (fs1 : FS),
      tryCatch (cloneAndConfigure env projectDir chain) reportCloneFailure w
        = (.exited 1,
            { fs := fs1
              trace := traceAtClone w projectDir ++ [.consoleError failedToCloneMessage e] }))
    ∨ (∃ (e : JsError) (fs1 : FS) (template : Str) (c : ChainConfig),
      env.chainConfigs.find? (fun c => c.shortName == chain) = some c ∧
      tryCatch (cloneAndConfigure env projectDir chain) reportCloneFailure w
        = (.exited 1,
            { fs := fs1
              trace := traceAtClone w projectDir
                ++ [.writeFile (getConfigPath projectDir) (renderConfig template c),
                    .consoleError failedToCloneMessage e] }))
    ∨ (∃ (template : Str) (c : ChainConfig),
      env.chainConfigs.find? (fun c => c.shortName == chain) = some c ∧
      fsAfterClone env w.fs projectDir (templatePath env) = some (.file template) ∧
      tryCatch (cloneAndConfigure env projectDir chain) reportCloneFailure w
        = (.ok (),
            { fs := storeFile (fsAfterClone env w.fs projectDir)
                (getConfigPath projectDir) (renderConfig template c)
              trace := traceAtClone w projectDir
                ++ [.writeFile (getConfigPath projectDir) (renderConfig template c)] })) := by
  have hfs : fsAfterClone env w.fs projectDir
      = removeTree (env.clone w.fs projectDir).1 (gitDir projectDir) := rfl
  rcases hclone : env.clone w.fs projectDir with ⟨fs1, _ | e⟩
  · -- the clone succeeds
    rw [hclone] at hfs
    simp only at hfs
    cases hrm : env.mutFault fs1 (.rm (gitDir projectDir)) with
    | some r =>
      left
      refine ⟨r.1, r.2, ?_⟩
      simp [tryCatch, cloneAndConfigure, reportCloneFailure, bind_apply, pure_apply, consoleLog,
        consoleError, emit, cloneRepo, hclone, rmSync, hrm, processExit, traceAtClone]
    | none =>
      cases hrf : env.readFault (removeTree fs1 (gitDir projectDir)) (templatePath env) with
      | some e =>
        left
        refine ⟨e, removeTree fs1 (gitDir projectDir), ?_⟩
        simp [tryCatch, cloneAndConfigure, reportCloneFailure, bind_apply, pure_apply,
          consoleLog, consoleError, emit, cloneRepo, hclone, rmSync, hrm, processExit,
          traceAtClone, readFileSync, hrf]
      | none =>
        cases hread : removeTree fs1 (gitDir projectDir) (templatePath env) with
        | none =>
          left
          refine ⟨.systemError "ENOENT".toList (templatePath env),
            removeTree fs1 (gitDir projectDir), ?_⟩
          simp [tryCatch, cloneAndConfigure, reportCloneFailure, bind_apply, pure_apply,
            consoleLog, consoleError, emit, cloneRepo, hclone, rmSync, hrm, processExit,
            traceAtClone, readFileSync, hrf, hread]
        | some node =>
          cases node with
          | dir =>
            left
            refine ⟨.systemError "EISDIR".toList (templatePath env),
              removeTree fs1 (gitDir projectDir), ?_⟩
            simp [tryCatch, cloneAndConfigure, reportCloneFailure, bind_apply, pure_apply,
              consoleLog, consoleError, emit, cloneRepo, hclone, rmSync, hrm, processExit,
              traceAtClone, readFileSync, hrf, hread]
          | file template =>
            cases hfind : env.chainConfigs.find? (fun c => c.shortName == chain) with
            | none =>
              left
              refine ⟨.typeError firstProperty, removeTree fs1 (gitDir projectDir), ?_⟩
              simp [tryCatch, cloneAndConfigure, reportCloneFailure, bind_apply, pure_apply,
                consoleLog, consoleError, emit, cloneRepo, hclone, rmSync, hrm, processExit,
                traceAtClone, readFileSync, hrf, hread, hfind, readRecord, throwJs]
            | some c =>
              right
              cases hwf : env.mutFault (removeTree fs1 (gitDir projectDir))
                  (.write (getConfigPath projectDir) (renderConfig template c)) with
              | some r =>
                left
                refine ⟨r.1, r.2, template, c, rfl, ?_⟩
                simp [tryCatch, cloneAndConfigure, reportCloneFailure, bind_apply, pure_apply,
                  consoleLog, consoleError, emit, cloneRepo, hclone, rmSync, hrm, processExit,
                  traceAtClone, readFileSync, hrf, hread, hfind, readRecord,
                  writePackageConfig, writeFileSync, hwf]
              | none =>
                have hfail : ∀ e : JsError,
                    writeFileSync env (getConfigPath projectDir) (renderConfig template c)
                        { fs := removeTree fs1 (gitDir projectDir),
                          trace := traceAtClone w projectDir }
                      = (.threw e,
                          { fs := removeTree fs1 (gitDir projectDir)
                            trace := traceAtClone w projectDir
                              ++ [.writeFile (getConfigPath projectDir)
                                    (renderConfig template c)] }) →
                    ∃ (e2 : JsError) (fs2 : FS) (t2 : Str) (c2 : ChainConfig),
                      some c = some c2 ∧
                      tryCatch (cloneAndConfigure env projectDir chain) reportCloneFailure w
                        = (.exited 1,
                            { fs := fs2
                              trace := traceAtClone w projectDir
                                ++ [.writeFile (getConfigPath projectDir)
                                      (renderConfig t2 c2),
                                    .consoleError failedToCloneMessage e2] }) := by
                  intro e he
                  refine ⟨e, removeTree fs1 (gitDir projectDir), template, c, rfl, ?_⟩
                  simp [tryCatch, cloneAndConfigure, reportCloneFailure, bind_apply, pure_apply,
                    consoleLog, consoleError, emit, cloneRepo, hclone, rmSync, hrm, processExit,
                    readFileSync, hrf, hread, hfind, readRecord, writePackageConfig]
                  simp only [traceAtClone] at he
                  simp [he, traceAtClone]
                cases hcfg : removeTree fs1 (gitDir projectDir) (getConfigPath projectDir) with
                | some node =>
                  cases node with
                  | dir =>
                    left
                    refine hfail (.systemError "EISDIR".toList (getConfigPath projectDir)) ?_
                    simp [writeFileSync, hwf, hcfg]
                  | file old =>
                    cases hpar : removeTree fs1 (gitDir projectDir)
                        (getConfigPath projectDir).dropLast with
                    | none =>
                      left
                      refine hfail (.systemError "ENOENT".toList (getConfigPath projectDir)) ?_
                      simp [writeFileSync, hwf, hcfg, hpar]
                    | some parent =>
                      cases parent with
                      | file x =>
                        left
                        refine hfail (.systemError "ENOTDIR".toList (getConfigPath projectDir)) ?_
                        simp [writeFileSync, hwf, hcfg, hpar]
                      | dir =>
                        right
                        refine ⟨template, c, rfl, by rw [hfs]; exact hread, ?_⟩
                        simp [tryCatch, cloneAndConfigure, reportCloneFailure, bind_apply,
                          pure_apply, consoleLog, consoleError, emit, cloneRepo, hclone, rmSync,
                          hrm, processExit, readFileSync, hrf, hread, hfind, readRecord,
                          writePackageConfig, writeFileSync, hwf, hcfg, hpar, hfs, traceAtClone]
                | none =>
                  cases hpar : removeTree fs1 (gitDir projectDir)
                      (getConfigPath projectDir).dropLast with
                  | none =>
                    left
                    refine hfail (.systemError "ENOENT".toList (getConfigPath projectDir)) ?_
                    simp [writeFileSync, hwf, hcfg, hpar]
                  | some parent =>
                    cases parent with
                    | file x =>
                      left
                      refine hfail (.systemError "ENOTDIR".toList (getConfigPath projectDir)) ?_
                      simp [writeFileSync, hwf, hcfg, hpar]
                    | dir =>
                      right
                      refine ⟨template, c, rfl, by rw [hfs]; exact hread, ?_⟩
                      simp [tryCatch, cloneAndConfigure, reportCloneFailure, bind_apply,
                        pure_apply, consoleLog, consoleError, emit, cloneRepo, hclone, rmSync,
                        hrm, processExit, readFileSync, hrf, hread, hfind, readRecord,
                        writePackageConfig, writeFileSync, hwf, hcfg, hpar, hfs, traceAtClone]
  · left
    refine ⟨e, fs1, ?_⟩
    simp [tryCatch, cloneAndConfigure, reportCloneFailure, bind_apply, pure_apply, consoleLog,
      consoleError, emit, cloneRepo, hclone, processExit, traceAtClone]

/-- Up to its `try` block, `setupProjectDirectory` throws, or exits because the
user declined, or reaches the block in a state `ReadyToClone`. -/
theorem setup_prefix (env : Env) (projectName chain : Str) (inquirer : Except JsError Bool)
    (fs : FS) :
    (∃ (e : JsError) (w : World),
      run (setupProjectDirectory env projectName chain inquirer) fs = (.threw e, w) ∧
      (w.trace = [] ∨ w.trace = [.prompt (overwriteMessage projectName)]))
    ∨ (fs (pathJoin env.cwd [projectName]) ≠ none ∧ inquirer = .ok false ∧
      run (setupProjectDirectory env projectName chain inquirer) fs
        = (.exited 1, { fs := fs, trace := [.prompt (overwriteMessage projectName),
            .consoleLog cancelledMessage] }))
    ∨ (∃ w : World, ReadyToClone env projectName inquirer fs w ∧
      run (setupProjectDirectory env projectName chain inquirer) fs
        = (tryCatch (cloneAndConfigure env (pathJoin env.cwd [projectName]) chain)
            reportCloneFailure >>= fun _ =>
              pure { projectDir := pathJoin env.cwd [projectName], currentDir := env.cwd })
            w) := by
  rw [setup_unfold]
  cases hfs : fs (pathJoin env.cwd [projectName]) with
  | none =>
    cases hmk : env.mutFault fs (.mkdir (pathJoin env.cwd [projectName])) with
    | some r =>
      left
      refine ⟨r.1, { fs := r.2, trace := [] }, ?_, Or.inl rfl⟩
      simp [run, bind_apply, pure_apply, existsSync, hfs, mkdirSync, hmk]
    | none =>
      cases hb : blockedByFile fs (pathJoin env.cwd [projectName]) with
      | true =>
        left
        refine ⟨.systemError "EEXIST".toList (pathJoin env.cwd [projectName]),
          { fs := fs, trace := [] }, ?_, Or.inl rfl⟩
        simp [run, bind_apply, pure_apply, existsSync, hfs, mkdirSync, hmk, hb]
      | false =>
        right; right
        refine ⟨{ fs := makeDirs fs (pathJoin env.cwd [projectName]), trace := [] },
          Or.inl ⟨hfs, rfl, rfl⟩, ?_⟩
        simp [run, bind_apply, pure_apply, existsSync, hfs, mkdirSync, hmk, hb]
  | some node =>
    have hne : fs (pathJoin env.cwd [projectName]) ≠ none := by rw [hfs]; simp
    cases inquirer with
    | error e =>
      left
      refine ⟨e, { fs := fs, trace := [.prompt (overwriteMessage projectName)] }, ?_,
        Or.inr rfl⟩
      simp [run, bind_apply, pure_apply, existsSync, hfs, promptOverwrite]
    | ok b =>
      cases b with
      | false =>
        right; left
        refine ⟨by simp, rfl, ?_⟩
        simp [run, bind_apply, pure_apply, existsSync, hfs, promptOverwrite, consoleLog, emit,
          processExit]
      | true =>
        cases hrm : env.mutFault fs (.rm (pathJoin env.cwd [projectName])) with
        | some r =>
          left
          refine ⟨r.1, { fs := r.2, trace := [.prompt (overwriteMessage projectName)] }, ?_,
            Or.inr rfl⟩
          simp [run, bind_apply, pure_apply, existsSync, hfs, promptOverwrite, rmSync, hrm]
        | none =>
          cases hmk : env.mutFault (removeTree fs (pathJoin env.cwd [projectName]))
              (.mkdir (pathJoin env.cwd [projectName])) with
          | some r =>
            left
            refine ⟨r.1, { fs := r.2, trace := [.prompt (overwriteMessage projectName)] }, ?_,
              Or.inr rfl⟩
            simp [run, bind_apply, pure_apply, existsSync, hfs, promptOverwrite, rmSync, hrm,
              mkdirSync, hmk]
          | none =>
            cases hb : blockedByFile (removeTree fs (pathJoin env.cwd [projectName]))
                (pathJoin env.cwd [projectName]) with
            | true =>
              left
              refine ⟨.systemError "EEXIST".toList (pathJoin env.cwd [projectName]),
                { fs := removeTree fs (pathJoin env.cwd [projectName]),
                  trace := [.prompt (overwriteMessage projectName)] }, ?_, Or.inr rfl⟩
              simp [run, bind_apply, pure_apply, existsSync, hfs, promptOverwrite, rmSync, hrm,
                mkdirSync, hmk, hb]
            | false =>
              right; right
              refine ⟨{ fs := makeDirs (removeTree fs (pathJoin env.cwd [projectName]))
                          (pathJoin env.cwd [projectName]),
                        trace := [.prompt (overwriteMessage projectName)] },
                Or.inr ⟨hne, rfl, rfl, rfl⟩, ?_⟩
              simp [run, bind_apply, pure_apply, existsSync, hfs, promptOverwrite, rmSync, hrm,
                mkdirSync, hmk, hb]

/-- Every way in which a run of `setupProjectDirectory` can end. -/
theorem setup_run_cases (env : Env) (projectName chain : Str)
    (inquirer : Except JsError Bool) (fs : FS) :
    (∃ (e : JsError) (w : World),
      run (setupProjectDirectory env projectName chain inquirer) fs = (.threw e, w) ∧
      (w.trace = [] ∨ w.trace = [.prompt (overwriteMessage projectName)]))
    ∨ (fs (pathJoin env.cwd [projectName]) ≠ none ∧ inquirer = .ok false ∧
      run (setupProjectDirectory env projectName chain inquirer) fs
        = (.exited 1, { fs := fs, trace := [.prompt (overwriteMessage projectName),
            .consoleLog cancelledMessage] }))
    ∨ (∃ (w : World) (e : JsError) (fs1 : FS),
      ReadyToClone env projectName inquirer fs w ∧
      run (setupProjectDirectory env projectName chain inquirer) fs
        = (.exited 1,
            { fs := fs1
              trace := traceAtClone w (pathJoin env.cwd [projectName])
                ++ [.consoleError failedToCloneMessage e] }))
    ∨ (∃ (w : World) (e : JsError) (fs1 : FS) (template : Str) (c : ChainConfig),
      ReadyToClone env projectName inquirer fs w ∧
      env.chainConfigs.find? (fun c => c.shortName == chain) = some c ∧
      run (setupProjectDirectory env projectName chain inquirer) fs
        = (.exited 1,
            { fs := fs1
              trace := traceAtClone w (pathJoin env.cwd [projectName])
                ++ [.writeFile (getConfigPath (pathJoin env.cwd [projectName]))
                      (renderConfig template c),
                    .consoleError failedToCloneMessage e] }))
    ∨ (∃ (w : World) (template : Str) (c : ChainConfig),
      ReadyToClone env projectName inquirer fs w ∧
      env.chainConfigs.find? (fun c => c.shortName == chain) = some c ∧
      fsAfterClone env w.fs (pathJoin env.cwd [projectName]) (templatePath env)
        = some (.file template) ∧
      run (setupProjectDirectory env projectName chain inquirer) fs
        = (.ok { projectDir := pathJoin env.cwd [projectName], currentDir := env.cwd },
            { fs := storeFile (fsAfterClone env w.fs (pathJoin env.cwd [projectName]))
                (getConfigPath (pathJoin env.cwd [projectName])) (renderConfig template c)
              trace := traceAtClone w (pathJoin env.cwd [projectName])
                ++ [.writeFile (getConfigPath (pathJoin env.cwd [projectName]))
                      (renderConfig template c)] })) := by
  rcases setup_prefix env projectName chain inquirer fs with h | h | ⟨w, hw, hrun⟩
  · exact Or.inl h
  · exact Or.inr (Or.inl h)
  · right; right
    rw [hrun, bind_apply]
    rcases tryCatch_cases env (pathJoin env.cwd [projectName]) chain w with
      ⟨e, fs1, h⟩ | ⟨e, fs1, template, c, hc, h⟩ | ⟨template, c, hc, htpl, h⟩
    · left
      exact ⟨w, e, fs1, hw, by rw [h]⟩
    · right; left
      exact ⟨w, e, fs1, template, c, hw, hc, by rw [h]⟩
    · right; right
      exact ⟨w, template, c, hw, hc, htpl, by rw [h]; rfl⟩

/-- Every way in which a run of `updateProjectConfig` can end. -/
theorem update_run_cases (env : Env) (chain : Str) (fs : FS) :
    (∃ e : JsError, run (updateProjectConfig env chain) fs = (.threw e, { fs := fs, trace := [] }))
    ∨ (∃ (template : Str) (c : ChainConfig) (o : Outcome Unit) (fs1 : FS),
      env.chainConfigs.find? (fun c => c.shortName == chain) = some c ∧
      fs (templatePath env) = some (.file template) ∧
      run (updateProjectConfig env chain) fs
        = (o, { fs := fs1
                trace := [.writeFile (getConfigPath env.cwd) (renderConfig template c)] })) := by
  cases hrf : env.readFault fs (templatePath env) with
  | some e =>
    left
    exact ⟨e, by simp [run, updateProjectConfig, bind_apply, readFileSync, hrf]⟩
  | none =>
    cases hread : fs (templatePath env) with
    | none =>
      left
      exact ⟨.systemError "ENOENT".toList (templatePath env),
        by simp [run, updateProjectConfig, bind_apply, readFileSync, hrf, hread]⟩
    | some node =>
      cases node with
      | dir =>
        left
        exact ⟨.systemError "EISDIR".toList (templatePath env),
          by simp [run, updateProjectConfig, bind_apply, readFileSync, hrf, hread]⟩
      | file template =>
        cases hfind : env.chainConfigs.find? (fun c => c.shortName == chain) with
        | none =>
          left
          exact ⟨.typeError firstProperty,
            by simp [run, updateProjectConfig, bind_apply, readFileSync, hrf, hread, hfind,
              readRecord, throwJs]⟩
        | some c =>
          right
          refine ⟨template, c,
            (writeFileSync env (getConfigPath env.cwd) (renderConfig template c)
              { fs := fs, trace := [] }).1,
            (writeFileSync env (getConfigPath env.cwd) (renderConfig template c)
              { fs := fs, trace := [] }).2.fs, rfl, rfl, ?_⟩
          have htrace : (writeFileSync env (getConfigPath env.cwd) (renderConfig template c)
              { fs := fs, trace := [] }).2.trace
                = [.writeFile (getConfigPath env.cwd) (renderConfig template c)] := by
            unfold writeFileSync
            simp only
            split
            · rfl
            · split
              · rfl
              · split <;> rfl
          simp [run, updateProjectConfig, bind_apply, pure_apply, readFileSync, hrf, hread, hfind,
            readRecord, writePackageConfig]
          rw [← htrace]

/-- The verdict of `isInsideScaffoldAlchemyProject`, which changes nothing. -/
theorem isInside_run (env : Env) (fs : FS) :
    run (isInsideScaffoldAlchemyProject env) fs
      = (.ok ((fs (rootPackageJsonPath env.cwd)).isSome && manifestAccepted env fs
              && (fs (sharedPackageDir env.cwd)).isSome && (fs (getConfigPath env.cwd)).isSome),
          { fs := fs, trace := [] }) := by
  unfold manifestAccepted
  cases hpj : fs (rootPackageJsonPath env.cwd) with
  | none =>
    simp [run, isInsideScaffoldAlchemyProject, bind_apply, pure_apply, existsSync, hpj]
  | some node =>
    cases hrf : env.readFault fs (rootPackageJsonPath env.cwd) with
    | some e =>
      simp [run, isInsideScaffoldAlchemyProject, bind_apply, pure_apply, existsSync, hpj,
        tryCatch, readFileSync, hrf]
    | none =>
      cases node with
      | dir =>
        simp [run, isInsideScaffoldAlchemyProject, bind_apply, pure_apply, existsSync, hpj,
          tryCatch, readFileSync, hrf]
      | file text =>
        cases hparse : env.jsonParse text with
        | error e =>
          simp [run, isInsideScaffoldAlchemyProject, bind_apply, pure_apply, existsSync, hpj,
            tryCatch, readFileSync, hrf, jsonParse, hparse]
        | ok j =>
          cases j with
          | obj members =>
            cases hws : members.lookup workspacesKey with
            | none =>
              simp [run, isInsideScaffoldAlchemyProject, bind_apply, pure_apply, existsSync, hpj,
                tryCatch, readFileSync, hrf, jsonParse, hparse, getField, hws, throwJs]
            | some wsv =>
              cases wsv with
              | obj ws =>
                cases hpk : ws.lookup packagesKey with
                | none =>
                  simp [run, isInsideScaffoldAlchemyProject, bind_apply, pure_apply, existsSync,
                    hpj, tryCatch, readFileSync, hrf, jsonParse, hparse, getField, hws, hpk,
                    truthy, isArray]
                | some pk =>
                  cases hsh : fs (sharedPackageDir env.cwd) <;>
                  cases hcf : fs (getConfigPath env.cwd) <;>
                  cases pk <;>
                  simp [run, isInsideScaffoldAlchemyProject, bind_apply, pure_apply, existsSync,
                    hpj, tryCatch, readFileSync, hrf, jsonParse, hparse, getField, hws, hpk,
                    truthy, isArray, hsh, hcf]
              | _ =>
                simp [run, isInsideScaffoldAlchemyProject, bind_apply, pure_apply, existsSync,
                  hpj, tryCatch, readFileSync, hrf, jsonParse, hparse, getField, hws, throwJs,
                  truthy, isArray]
          | _ =>
            simp [run, isInsideScaffoldAlchemyProject, bind_apply, pure_apply, existsSync, hpj,
              tryCatch, readFileSync, hrf, jsonParse, hparse, getField, throwJs]

/-! ## Paths of the module -/

theorem gitDir_eq (p : Path) : gitDir p = p ++ [".git".toList] := rfl

theorem getConfigPath_eq (p : Path) :
    getConfigPath p
      = p ++ ["packages".toList] ++ ["shared".toList] ++ ["src".toList]
          ++ ["cw3d.config.ts".toList] := rfl

theorem templatePath_eq (env : Env) :
    templatePath env
      = env.moduleDir.dropLast ++ ["templates".toList] ++ ["cw3d.config.template".toList] := rfl

theorem gitDir_ne_getConfigPath (p : Path) : getConfigPath p ≠ gitDir p := by
  intro h
  have hlen := congrArg List.length h
  rw [gitDir_eq, getConfigPath_eq] at hlen
  simp at hlen

theorem templatePath_ne_getConfigPath (env : Env) (p : Path) :
    templatePath env ≠ getConfigPath p := by
  intro h
  rw [templatePath_eq, getConfigPath_eq] at h
  have h2 := (List.append_inj' h rfl).2
  exact absurd h2 (by decide)

/-! ## Rendering: the claims -/

set_option maxRecDepth 100000

/-- C1, as stated, fails on the code.  In each of four inputs no field value
contains a placeholder token, yet the rendered text contains one: (1) a token
that occurs twice is replaced once; (2) the value `$&` is a replacement pattern
and re-inserts the token; (3) a value that is an opening brace completes a
token out of the text after it; (4) a value completes a token out of the text
around it when an opener does not start a token. -/
theorem render_can_leave_placeholder :
    ((∀ v ∈ fieldValues sepoliaChain, ∀ T ∈ placeholderTokens, countOcc T v = 0) ∧
      renderConfig (tokMainnetName ++ " and ".toList ++ tokMainnetName) sepoliaChain
        = "Ethereum and ".toList ++ tokMainnetName) ∧
    ((∀ v ∈ fieldValues matchedPatternChain, ∀ T ∈ placeholderTokens, countOcc T v = 0) ∧
      renderConfig ("id=".toList ++ tokMainnetName) matchedPatternChain
        = "id=".toList ++ tokMainnetName) ∧
    ((∀ v ∈ fieldValues braceChain, ∀ T ∈ placeholderTokens, countOcc T v = 0) ∧
      renderConfig (tokMainnetChainId ++ tokMainnetName.tail) braceChain = tokMainnetName) ∧
    ((∀ v ∈ fieldValues netChain, ∀ T ∈ placeholderTokens, countOcc T v = 0) ∧
      renderConfig ([lbrace, lbrace] ++ "main".toList ++ tokMainnetChainId
          ++ "Name".toList ++ [rbrace, rbrace]) netChain = tokMainnetName) := by
  refine ⟨⟨?_, ?_⟩, ⟨?_, ?_⟩, ⟨?_, ?_⟩, ⟨?_, ?_⟩⟩ <;> decide

/-- C1, amended: when each placeholder token occurs at most once in the
template, every pair of opening braces in it starts a placeholder token, and no
field value contains an opening brace or a dollar sign, the rendered text
contains no occurrence of any of the four placeholder tokens. -/
theorem render_leaves_no_placeholder (template : Str) (c : ChainConfig)
    (hOnce : ∀ T ∈ placeholderTokens, countOcc T template ≤ 1)
    (hOpen : openersStartTokens placeholderTokens template = true)
    (hVals : ∀ v ∈ fieldValues c, lbrace ∉ v ∧ dollar ∉ v) :
    ∀ T ∈ placeholderTokens, countOcc T (renderConfig template c) = 0 :=
  (render_spec template c hOnce hOpen hVals).2

/-- The hypotheses of `render_leaves_no_placeholder` hold for the template and
the record of the specification's example. -/
theorem render_leaves_no_placeholder_witness :
    (∀ T ∈ placeholderTokens, countOcc T exampleTemplate ≤ 1) ∧
    openersStartTokens placeholderTokens exampleTemplate = true ∧
    (∀ v ∈ fieldValues sepoliaChain, lbrace ∉ v ∧ dollar ∉ v) ∧
    ∀ T ∈ placeholderTokens, countOcc T (renderConfig exampleTemplate sepoliaChain) = 0 :=
  ⟨by decide, by decide, by decide,
    render_leaves_no_placeholder exampleTemplate sepoliaChain (by decide) (by decide)
      (by decide)⟩

/-- C2, as stated, fails on the code.  Each template holds the single token
`{{mainnetName}}` and no other placeholder occurrence, yet the output is not
the template with the field value in its place: (1) `$$` in the value is
written as one dollar sign; (2) a value that is another token is replaced by
the later call; (3) a value completes, with the text around it, a token that
a later call replaces. -/
theorem render_can_alter_value :
    ((∀ q ∈ Placeholder.all, countOcc q.token ("name: ".toList ++ tokMainnetName ++ ";".toList)
        = if q = Placeholder.mainnetName then 1 else 0) ∧
      renderConfig ("name: ".toList ++ tokMainnetName ++ ";".toList) dollarChain
        = "name: US$;".toList ∧
      "name: ".toList ++ dollarChain.mainnetName ++ ";".toList = "name: US$$;".toList) ∧
    (renderConfig ("name: ".toList ++ tokMainnetName ++ ";".toList) nestedChain
        = "name: 1;".toList ∧
      "name: ".toList ++ nestedChain.mainnetName ++ ";".toList
        = "name: ".toList ++ tokMainnetChainId ++ ";".toList) ∧
    ((∀ q ∈ Placeholder.all, countOcc q.token
        (([lbrace, lbrace] ++ "test".toList) ++ tokMainnetName ++ [rbrace, rbrace])
        = if q = Placeholder.mainnetName then 1 else 0) ∧
      renderConfig (([lbrace, lbrace] ++ "test".toList) ++ tokMainnetName ++ [rbrace, rbrace])
        suffixChain = "11155111".toList ∧
      ([lbrace, lbrace] ++ "test".toList) ++ suffixChain.mainnetName ++ [rbrace, rbrace]
        = tokTestnetChainId) := by
  refine ⟨⟨?_, ?_, ?_⟩, ⟨?_, ?_⟩, ⟨?_, ?_, ?_⟩⟩ <;> decide

/-- C2, amended: for a template `pre ++ token ++ post` that contains that one
placeholder occurrence and no other, in which every pair of opening braces
starts a placeholder token, and for a chain record whose field for that
placeholder contains no opening brace and no dollar sign (the other three
fields are arbitrary), the rendered text is exactly `pre ++ field ++ post`.
This holds for each of the four placeholders. -/
theorem render_single_placeholder (c : ChainConfig) (ph : Placeholder) (pre post : Str)
    (hOnly : ∀ q ∈ Placeholder.all,
      countOcc q.token (pre ++ ph.token ++ post) = if q = ph then 1 else 0)
    (hOpen : openersStartTokens placeholderTokens (pre ++ ph.token ++ post) = true)
    (hVal : lbrace ∉ ph.field c ∧ dollar ∉ ph.field c) :
    renderConfig (pre ++ ph.token ++ post) c = pre ++ ph.field c ++ post := by
  have hall : ∀ q : Placeholder, q ∈ Placeholder.all := by
    intro q; cases q <;> simp [Placeholder.all]
  have hself : countOcc ph.token (pre ++ ph.token ++ post) ≤ 1 := by
    rw [hOnly ph (hall ph)]; simp
  have hothers : ∀ q : Placeholder, q ≠ ph → countOcc q.token (pre ++ ph.token ++ post) = 0 := by
    intro q hq
    rw [hOnly q (hall q), if_neg hq]
  have hOpen1 : openersStartTokens [ph.token] (pre ++ ph.token ++ post) = true := by
    refine openersStartTokens_mono placeholderTokens _ _ (fun T hT => ?_) hOpen
    simp only [placeholderTokens, List.mem_cons, List.mem_singleton, List.not_mem_nil,
      or_false] at hT
    have key : ∀ q : Placeholder, T = q.token →
        T ∈ [ph.token] ∨ countOcc T (pre ++ ph.token ++ post) = 0 := by
      intro q hq
      by_cases hqp : q = ph
      · left; rw [hq, hqp]; simp
      · right; rw [hq]; exact hothers q hqp
    rcases hT with h | h | h | h
    · exact key .mainnetName h
    · exact key .mainnetChainId h
    · exact key .testnetChainId h
    · exact key .testnetChainName h
  have hstep : replaceFirst ph.token (ph.field c) (pre ++ ph.token ++ post)
      = pre ++ ph.field c ++ post :=
    replaceFirst_at_only_occurrence _ _ (isToken_placeholder ph).ne_nil pre post hself
  have hafter : ∀ q : Placeholder, countOcc q.token (pre ++ ph.field c ++ post) = 0 := by
    intro q
    rw [← hstep]
    refine replaceFirst_leaves_none _ _ _ (isToken_placeholder ph) hVal.1 hOpen1 hself
      q.token (isToken_placeholder q) ?_
    by_cases hqp : q = ph
    · left; rw [hqp]
    · right; exact hothers q hqp
  have hdo : jsReplace (pre ++ ph.token ++ post) ph.token (ph.field c)
      = pre ++ ph.field c ++ post := by
    rw [jsReplace_eq_replaceFirst _ _ hVal.2, hstep]
  have a1 := hafter .mainnetName
  have a2 := hafter .mainnetChainId
  have a3 := hafter .testnetChainId
  have a4 := hafter .testnetChainName
  unfold renderConfig
  cases ph with
  | mainnetName =>
    simp only [Placeholder.token, Placeholder.field] at hdo a2 a3 a4 ⊢
    rw [hdo, jsReplace_of_countOcc_zero _ _ _ a2, jsReplace_of_countOcc_zero _ _ _ a3,
      jsReplace_of_countOcc_zero _ _ _ a4]
  | mainnetChainId =>
    have b1 := hothers .mainnetName (by decide)
    simp only [Placeholder.token, Placeholder.field] at hdo a3 a4 b1 ⊢
    rw [jsReplace_of_countOcc_zero _ _ _ b1, hdo, jsReplace_of_countOcc_zero _ _ _ a3,
      jsReplace_of_countOcc_zero _ _ _ a4]
  | testnetChainId =>
    have b1 := hothers .mainnetName (by decide)
    have b2 := hothers .mainnetChainId (by decide)
    simp only [Placeholder.token, Placeholder.field] at hdo a4 b1 b2 ⊢
    rw [jsReplace_of_countOcc_zero _ _ _ b1, jsReplace_of_countOcc_zero _ _ _ b2, hdo,
      jsReplace_of_countOcc_zero _ _ _ a4]
  | testnetChainName =>
    have b1 := hothers .mainnetName (by decide)
    have b2 := hothers .mainnetChainId (by decide)
    have b3 := hothers .testnetChainId (by decide)
    simp only [Placeholder.token, Placeholder.field] at hdo b1 b2 b3 ⊢
    rw [jsReplace_of_countOcc_zero _ _ _ b1, jsReplace_of_countOcc_zero _ _ _ b2,
      jsReplace_of_countOcc_zero _ _ _ b3, hdo]

/-- An instance of `render_single_placeholder` for the placeholder
`mainnetChainId`. -/
theorem render_single_placeholder_witness :
    renderConfig ("id: ".toList ++ Placeholder.mainnetChainId.token ++ ",".toList) sepoliaChain
      = "id: ".toList ++ Placeholder.field sepoliaChain .mainnetChainId ++ ",".toList :=
  render_single_placeholder sepoliaChain .mainnetChainId "id: ".toList ",".toList
    (by decide) (by decide) (by decide)

/-- C3: when each placeholder token occurs at most once in the template, every
pair of opening braces in it starts a placeholder token, and no field value
contains an opening brace, a closing brace or a dollar sign, the four chained
`replace` calls compute the simultaneous substitution: the output is the
template with each token occurrence replaced by the corresponding field and
every other character unchanged. -/
theorem render_eq_substituteAll (template : Str) (c : ChainConfig)
    (hOnce : ∀ T ∈ placeholderTokens, countOcc T template ≤ 1)
    (hOpen : openersStartTokens placeholderTokens template = true)
    (hVals : ∀ v ∈ fieldValues c, lbrace ∉ v ∧ rbrace ∉ v ∧ dollar ∉ v) :
    renderConfig template c = substituteAll c template :=
  (render_spec template c hOnce hOpen (fun v hv => ⟨(hVals v hv).1, (hVals v hv).2.2⟩)).1

/-- The example of the specification: its template and record meet the
hypotheses of `render_eq_substituteAll`, and the rendered text is
`chain=Ethereum/1/11155111/Sepolia`. -/
theorem render_eq_substituteAll_witness :
    (∀ T ∈ placeholderTokens, countOcc T exampleTemplate ≤ 1) ∧
    openersStartTokens placeholderTokens exampleTemplate = true ∧
    (∀ v ∈ fieldValues sepoliaChain, lbrace ∉ v ∧ rbrace ∉ v ∧ dollar ∉ v) ∧
    renderConfig exampleTemplate sepoliaChain = substituteAll sepoliaChain exampleTemplate ∧
    renderConfig exampleTemplate sepoliaChain = "chain=Ethereum/1/11155111/Sepolia".toList :=
  ⟨by decide, by decide, by decide,
    render_eq_substituteAll exampleTemplate sepoliaChain (by decide) (by decide) (by decide),
    by decide⟩

/-! ## The workflow: the claims -/

/-- A short name that no entry carries is not found by `find`. -/
theorem find_eq_none_of_unknown (env : Env) (chain : Str)
    (hUnknown : ∀ c ∈ env.chainConfigs, c.shortName ≠ chain) :
    env.chainConfigs.find? (fun c => c.shortName == chain) = none := by
  rw [List.find?_eq_none]
  intro c hc
  simpa using hUnknown c hc

/-- C5: for a chain short name that matches no registry entry, neither
`setupProjectDirectory` nor `updateProjectConfig` calls `fs.writeFileSync`: the
substitution is never reached with an undefined record, so no configuration
is written at all, and `updateProjectConfig` leaves the file system as it
was. -/
theorem unknown_chain_never_writes (env : Env) (projectName chain : Str)
    (inquirer : Except JsError Bool) (fs : FS)
    (hUnknown : ∀ c ∈ env.chainConfigs, c.shortName ≠ chain) :
    (∀ path content, Event.writeFile path content
        ∉ (run (setupProjectDirectory env projectName chain inquirer) fs).2.trace) ∧
    (∀ path content, Event.writeFile path content
        ∉ (run (updateProjectConfig env chain) fs).2.trace) ∧
    (run (updateProjectConfig env chain) fs).2.fs = fs := by
  have hfind := find_eq_none_of_unknown env chain hUnknown
  refine ⟨?_, ?_, ?_⟩
  · intro path content
    rcases setup_run_cases env projectName chain inquirer fs with
      ⟨e, w, h, ht⟩ | ⟨-, -, h⟩ | ⟨w, e, fs1, hw, h⟩ | ⟨w, e, fs1, t, c, -, hc, -⟩
        | ⟨w, t, c, -, hc, -⟩
    · rw [h]
      rcases ht with ht | ht <;> simp [ht]
    · rw [h]; simp
    · rw [h]
      rcases hw with ⟨-, ht, -⟩ | ⟨-, -, ht, -⟩ <;> simp [traceAtClone, ht]
    · rw [hfind] at hc; simp at hc
    · rw [hfind] at hc; simp at hc
  · intro path content
    rcases update_run_cases env chain fs with ⟨e, h⟩ | ⟨t, c, o, fs1, hc, -⟩
    · rw [h]; simp
    · rw [hfind] at hc; simp at hc
  · rcases update_run_cases env chain fs with ⟨e, h⟩ | ⟨t, c, o, fs1, hc, -⟩
    · rw [h]
    · rw [hfind] at hc; simp at hc

/-- An instance of `unknown_chain_never_writes`: the chain `goerli` against a
registry that holds only `sepolia`. -/
theorem unknown_chain_never_writes_witness :
    (∀ c ∈ demoEnv.chainConfigs, c.shortName ≠ "goerli".toList) ∧
    (∀ path content, Event.writeFile path content
        ∉ (run (setupProjectDirectory demoEnv "my-dapp".toList "goerli".toList (.ok true))
            freshFs).2.trace) :=
  ⟨by decide,
    (unknown_chain_never_writes demoEnv "my-dapp".toList "goerli".toList (.ok true) freshFs
      (by decide)).1⟩

/-- C8: when the project directory already exists and the prompt answers
false, `setupProjectDirectory` ends with `process.exit(1)`, leaves the file
system exactly as it was, never invokes the clone capability and returns no
project context. -/
theorem setup_declined_changes_nothing (env : Env) (projectName chain : Str) (fs : FS)
    (hExists : fs (pathJoin env.cwd [projectName]) ≠ none) :
    (run (setupProjectDirectory env projectName chain (.ok false)) fs).1 = .exited 1 ∧
    (run (setupProjectDirectory env projectName chain (.ok false)) fs).2.fs = fs ∧
    (∀ url dest fsAt, Event.clone url dest fsAt
        ∉ (run (setupProjectDirectory env projectName chain (.ok false)) fs).2.trace) ∧
    (∀ ctx, (run (setupProjectDirectory env projectName chain (.ok false)) fs).1 ≠ .ok ctx) := by
  rw [setup_declined env projectName chain fs hExists]
  refine ⟨rfl, rfl, ?_, ?_⟩
  · intro url dest fsAt
    simp
  · intro ctx
    simp

/-- An instance of `setup_declined_changes_nothing`: `/home/dev/my-dapp`
exists and holds a file. -/
theorem setup_declined_changes_nothing_witness :
    occupiedFs (pathJoin demoEnv.cwd ["my-dapp".toList]) ≠ none ∧
    (run (setupProjectDirectory demoEnv "my-dapp".toList "sepolia".toList (.ok false))
        occupiedFs).1 = .exited 1 ∧
    (run (setupProjectDirectory demoEnv "my-dapp".toList "sepolia".toList (.ok false))
        occupiedFs).2.fs = occupiedFs :=
  ⟨by decide,
    (setup_declined_changes_nothing demoEnv "my-dapp".toList "sepolia".toList occupiedFs
      (by decide)).1,
    (setup_declined_changes_nothing demoEnv "my-dapp".toList "sepolia".toList occupiedFs
      (by decide)).2.1⟩

/-- C9: when the project directory already exists and the prompt answers true,
every call of the clone capability has the project directory as destination
and finds it as a directory with nothing below it; and unless the removal or
the creation of the directory throws, the clone capability is called. -/
theorem clone_finds_empty_directory (env : Env) (projectName chain : Str) (fs : FS)
    (hExists : fs (pathJoin env.cwd [projectName]) ≠ none) :
    (∀ url dest fsAt, Event.clone url dest fsAt
        ∈ (run (setupProjectDirectory env projectName chain (.ok true)) fs).2.trace →
      dest = pathJoin env.cwd [projectName] ∧ fsAt dest = some .dir ∧
      ∀ q : Path, dest.isPrefixOf q = true → q ≠ dest → fsAt q = none) ∧
    ((∀ e, (run (setupProjectDirectory env projectName chain (.ok true)) fs).1 ≠ .threw e) →
      ∃ fsAt, Event.clone templateUrl (pathJoin env.cwd [projectName]) fsAt
        ∈ (run (setupProjectDirectory env projectName chain (.ok true)) fs).2.trace) := by
  have key : ∀ (w : World) (rest : List Event),
      ReadyToClone env projectName (.ok true) fs w →
      (∀ url dest fsAt, Event.clone url dest fsAt ∉ rest) →
      (∀ url dest fsAt, Event.clone url dest fsAt
          ∈ traceAtClone w (pathJoin env.cwd [projectName]) ++ rest →
        dest = pathJoin env.cwd [projectName] ∧ fsAt dest = some .dir ∧
        ∀ q : Path, dest.isPrefixOf q = true → q ≠ dest → fsAt q = none) ∧
      ∃ fsAt, Event.clone templateUrl (pathJoin env.cwd [projectName]) fsAt
        ∈ traceAtClone w (pathJoin env.cwd [projectName]) ++ rest := by
    intro w rest hw hrest
    rcases hw with ⟨hnone, -, -⟩ | ⟨-, -, ht, hwfs⟩
    · exact absurd hnone hExists
    · refine ⟨fun url dest fsAt hmem => ?_, w.fs, by simp [traceAtClone]⟩
      have hmem2 : Event.clone url dest fsAt
          = Event.clone templateUrl (pathJoin env.cwd [projectName]) w.fs := by
        simp only [traceAtClone, ht, List.mem_append, List.mem_cons, List.mem_singleton,
          List.not_mem_nil, or_false] at hmem
        rcases hmem with (h | h | h) | h
        · exact absurd h (by simp)
        · exact absurd h (by simp)
        · exact h
        · exact absurd h (hrest url dest fsAt)
      injection hmem2 with _ hdest hfsAt
      subst hdest
      subst hfsAt
      rw [hwfs]
      exact ⟨rfl, makeDirs_removeTree_self fs _,
        fun q hq hne => makeDirs_removeTree_below fs _ q hq hne⟩
  rcases setup_run_cases env projectName chain (.ok true) fs with
    ⟨e, w, h, ht⟩ | ⟨-, hfalse, -⟩ | ⟨w, e, fs1, hw, h⟩ | ⟨w, e, fs1, t, c, hw, -, h⟩
      | ⟨w, t, c, hw, -, -, h⟩
  · rw [h]
    refine ⟨fun url dest fsAt hmem => ?_, fun hne => absurd rfl (hne e)⟩
    rcases ht with ht | ht <;> simp [ht] at hmem
  · exact absurd hfalse (by simp)
  · rw [h]
    obtain ⟨h1, h2⟩ := key w [.consoleError failedToCloneMessage e] hw
      (fun url dest fsAt => by simp)
    exact ⟨h1, fun _ => h2⟩
  · rw [h]
    obtain ⟨h1, h2⟩ := key w
      [.writeFile (getConfigPath (pathJoin env.cwd [projectName])) (renderConfig t c),
        .consoleError failedToCloneMessage e] hw (fun url dest fsAt => by simp)
    exact ⟨h1, fun _ => h2⟩
  · rw [h]
    obtain ⟨h1, h2⟩ := key w
      [.writeFile (getConfigPath (pathJoin env.cwd [projectName])) (renderConfig t c)] hw
      (fun url dest fsAt => by simp)
    exact ⟨h1, fun _ => h2⟩

/-- An instance of `clone_finds_empty_directory`: `/home/dev/my-dapp` exists
and holds a file, and the clone capability is reached. -/
theorem clone_finds_empty_directory_witness :
    occupiedFs (pathJoin demoEnv.cwd ["my-dapp".toList]) ≠ none ∧
    ∃ fsAt, Event.clone templateUrl (pathJoin demoEnv.cwd ["my-dapp".toList]) fsAt
      ∈ (run (setupProjectDirectory demoEnv "my-dapp".toList "sepolia".toList (.ok true))
          occupiedFs).2.trace :=
  ⟨by decide,
    (clone_finds_empty_directory demoEnv "my-dapp".toList "sepolia".toList occupiedFs
      (by decide)).2
      (fun e h => by
        have hOk : (run (setupProjectDirectory demoEnv "my-dapp".toList "sepolia".toList
            (.ok true)) occupiedFs).1
              = .ok { projectDir := pathJoin demoCwd ["my-dapp".toList],
                      currentDir := demoCwd } := by decide
        rw [hOk] at h
        cases h)⟩

/-- C10: whenever `setupProjectDirectory` returns normally for a registered
chain short name, it returns `{ projectDir, currentDir }` with `projectDir` the
join of the working directory and the project name; in the resulting file
system `projectDir/.git` does not exist and the configuration file holds the
template, as it stands in the bundled template file, rendered with the chain
record found for the short name. -/
theorem setup_success (env : Env) (projectName chain : Str) (inquirer : Except JsError Bool)
    (fs : FS) (ctx : ProjectContext) (c : ChainConfig)
    (hChain : env.chainConfigs.find? (fun r => r.shortName == chain) = some c)
    (hReturns : (run (setupProjectDirectory env projectName chain inquirer) fs).1 = .ok ctx) :
    ctx = { projectDir := pathJoin env.cwd [projectName], currentDir := env.cwd } ∧
    (run (setupProjectDirectory env projectName chain inquirer) fs).2.fs
      (pathJoin ctx.projectDir [".git".toList]) = none ∧
    ∃ template,
      (run (setupProjectDirectory env projectName chain inquirer) fs).2.fs (templatePath env)
        = some (.file template) ∧
      (run (setupProjectDirectory env projectName chain inquirer) fs).2.fs
        (getConfigPath ctx.projectDir) = some (.file (renderConfig template c)) := by
  rcases setup_run_cases env projectName chain inquirer fs with
    ⟨e, w, h, -⟩ | ⟨-, -, h⟩ | ⟨w, e, fs1, -, h⟩ | ⟨w, e, fs1, t, c2, -, -, h⟩
      | ⟨w, t, c2, -, hc, htpl, h⟩
  · rw [h] at hReturns; simp at hReturns
  · rw [h] at hReturns; simp at hReturns
  · rw [h] at hReturns; simp at hReturns
  · rw [h] at hReturns; simp at hReturns
  · rw [h] at hReturns ⊢
    rw [hChain] at hc
    have hcc : c = c2 := by simpa using hc
    subst hcc
    have hctx : ctx = { projectDir := pathJoin env.cwd [projectName], currentDir := env.cwd } := by
      simpa using hReturns.symm
    subst hctx
    refine ⟨rfl, ?_, t, ?_, ?_⟩
    · show storeFile _ _ _ (gitDir (pathJoin env.cwd [projectName])) = none
      unfold storeFile
      rw [if_neg (gitDir_ne_getConfigPath _).symm]
      simp [fsAfterClone, removeTree, isPrefixOf_self]
    · show storeFile _ _ _ (templatePath env) = _
      unfold storeFile
      rw [if_neg (templatePath_ne_getConfigPath env _)]
      exact htpl
    · show storeFile _ _ _ _ = _
      simp [storeFile]

/-- An instance of `setup_success`: the run on the example surroundings
returns, and the configuration file holds the rendered example template. -/
theorem setup_success_witness :
    (run (setupProjectDirectory demoEnv "my-dapp".toList "sepolia".toList (.ok true))
        occupiedFs).2.fs (getConfigPath (pathJoin demoCwd ["my-dapp".toList]))
      = some (.file "chain=Ethereum/1/11155111/Sepolia".toList) ∧
    ∃ template,
      (run (setupProjectDirectory demoEnv "my-dapp".toList "sepolia".toList (.ok true))
          occupiedFs).2.fs (templatePath demoEnv) = some (.file template) ∧
      (run (setupProjectDirectory demoEnv "my-dapp".toList "sepolia".toList (.ok true))
          occupiedFs).2.fs
        (getConfigPath (pathJoin demoCwd ["my-dapp".toList]))
          = some (.file (renderConfig template sepoliaChain)) :=
  ⟨by decide,
    (setup_success demoEnv "my-dapp".toList "sepolia".toList (.ok true) occupiedFs
      { projectDir := pathJoin demoCwd ["my-dapp".toList], currentDir := demoCwd }
      sepoliaChain rfl (by decide)).2.2⟩

/-! ## The project predicate: the claims -/

/-- What `manifestAccepted` decides, spelled out. -/
theorem manifestAccepted_iff (env : Env) (fs : FS) :
    manifestAccepted env fs = true ↔
      ∃ text members ws items,
        env.readFault fs (rootPackageJsonPath env.cwd) = none ∧
        fs (rootPackageJsonPath env.cwd) = some (.file text) ∧
        env.jsonParse text = .ok (.obj members) ∧
        members.lookup workspacesKey = some (.obj ws) ∧
        ws.lookup packagesKey = some (.arr items) := by
  constructor
  · intro h
    unfold manifestAccepted at h
    split at h
    · exact absurd h (by decide)
    · rename_i hrf
      split at h
      · rename_i text hpj
        split at h
        · rename_i members hparse
          split at h
          · rename_i ws hws
            split at h
            · rename_i items hpk
              exact ⟨text, members, ws, items, hrf, hpj, hparse, hws, hpk⟩
            · exact absurd h (by decide)
          · exact absurd h (by decide)
        · exact absurd h (by decide)
      · exact absurd h (by decide)
  · rintro ⟨text, members, ws, items, hrf, hpj, hparse, hws, hpk⟩
    unfold manifestAccepted
    rw [hrf]
    simp only
    rw [hpj]
    simp only
    rw [hparse]
    simp only
    rw [hws]
    simp only
    rw [hpk]

/-- C6, as stated, fails on the code: with a manifest whose
`workspaces.packages` is the empty list, and `packages/shared` and the
configuration file present, the predicate returns true. -/
theorem empty_package_list_is_accepted :
    demoEnv.jsonParse emptyListManifest
      = .ok (.obj [(workspacesKey, .obj [(packagesKey, .arr [])])]) ∧
    projectFs emptyListManifest (rootPackageJsonPath demoEnv.cwd)
      = some (.file emptyListManifest) ∧
    (run (isInsideScaffoldAlchemyProject demoEnv) (projectFs emptyListManifest)).1
      = .ok true :=
  ⟨rfl, by decide, by decide⟩

/-- C6, amended: `isInsideScaffoldAlchemyProject` returns true only if (and
exactly when) `package.json` exists in the current directory, can be read and
parses as a JSON object whose `workspaces.packages` is a list, empty or not,
`packages/shared` exists and `packages/shared/src/cw3d.config.ts` exists. -/
theorem isInside_true_iff (env : Env) (fs : FS) :
    (run (isInsideScaffoldAlchemyProject env) fs).1 = .ok true ↔
      (∃ text members ws items,
        env.readFault fs (rootPackageJsonPath env.cwd) = none ∧
        fs (rootPackageJsonPath env.cwd) = some (.file text) ∧
        env.jsonParse text = .ok (.obj members) ∧
        members.lookup workspacesKey = some (.obj ws) ∧
        ws.lookup packagesKey = some (.arr items)) ∧
      fs (sharedPackageDir env.cwd) ≠ none ∧ fs (getConfigPath env.cwd) ≠ none := by
  rw [isInside_run, ← manifestAccepted_iff]
  constructor
  · intro h
    have h2 : ((fs (rootPackageJsonPath env.cwd)).isSome && manifestAccepted env fs
        && (fs (sharedPackageDir env.cwd)).isSome && (fs (getConfigPath env.cwd)).isSome)
          = true := by simpa using h
    simp only [Bool.and_eq_true] at h2
    refine ⟨h2.1.1.2, ?_, ?_⟩
    · intro hn; rw [hn] at h2; simp at h2
    · intro hn; rw [hn] at h2; simp at h2
  · rintro ⟨hm, hs, hc⟩
    have hpj : (fs (rootPackageJsonPath env.cwd)).isSome = true := by
      obtain ⟨text, _, _, _, _, hfile, _⟩ := (manifestAccepted_iff env fs).1 hm
      rw [hfile]; rfl
    have hs2 : (fs (sharedPackageDir env.cwd)).isSome = true := by
      cases h : fs (sharedPackageDir env.cwd) with
      | none => exact absurd h hs
      | some _ => rfl
    have hc2 : (fs (getConfigPath env.cwd)).isSome = true := by
      cases h : fs (getConfigPath env.cwd) with
      | none => exact absurd h hc
      | some _ => rfl
    simp [hpj, hm, hs2, hc2]

end Cw3d
